import Mathlib

/-!
Verification of the `Sequence` data model of the SequencerGUI repository
(src/SequencerGUI/sequence.cpp) against its natural-language specification.

The C++ code is shallowly embedded: C++ `double` becomes `ℚ`, C++ `int`
becomes `ℤ` (with truncating division `Int.tdiv` where the source divides),
`QList` becomes `List`, Qt signals become an explicit list of emitted
`Signal` values returned alongside the new state, and the fallible loader
returns `Option Sequence` (`none` models the branch that returns a
default-constructed invalid `Sequence`).

The `SequencePoint` class itself (sequencepoint.h/cpp) is not part of the
given sources; its default constructor, equality, `toJson` and `fromJson`
are modelled from the spec where indicated.
-/

/-- Keys of the JSON objects used by the file format. The format only ever
looks up these three fixed keys, so they are modelled symbolically. -/
inductive JKey where
  | point
  | duration
  | timeToTarget
deriving DecidableEq

/-- Shallow model of a Qt JSON value (QJsonValue / QJsonDocument content).
Numbers are modelled as rationals. -/
inductive Json where
  | null : Json
  | bool : Bool → Json
  | num : ℚ → Json
  | arr : List Json → Json
  | obj : List (JKey × Json) → Json

/-- A single waypoint: a vector of coordinates plus two integer timing
fields. Mirrors the C++ `SequencePoint` (point : QVector of double,
duration : int, timeToTarget : int). -/
structure SequencePoint where
  point : List ℚ
  duration : ℤ
  timeToTarget : ℤ
deriving DecidableEq

/-- Modelled from the spec: the default-constructed `SequencePoint`
(sequencepoint.h is not among the given sources) has an empty coordinate
vector and zero duration and timeToTarget, consistent with the spec's
zero-value sentinels and with `load` padding a default point with 0.0. -/
instance : Inhabited SequencePoint := ⟨⟨[], 0, 0⟩⟩

/-- The `Sequence` state: the members m_pointDim, m_min, m_max, m_sequence,
m_curPoint and m_isModified of the C++ class. -/
structure Sequence where
  pointDim : ℕ
  min : SequencePoint
  max : SequencePoint
  seq : List SequencePoint
  curPoint : ℤ
  isModified : Bool
deriving DecidableEq

/-- Modelled from the spec: a Sequence is valid iff `pointDim > 0`
(`isValid` lives in the header, which is not among the given sources). -/
def Sequence.isValid (s : Sequence) : Prop := 0 < s.pointDim

instance (s : Sequence) : Decidable s.isValid := Nat.decLt 0 s.pointDim

/-- The Qt signals emitted by `Sequence`, in emission order. -/
inductive Signal where
  | numPointsChanged
  | curPointChanged
  | curPointValuesChanged
  | pointValuesChanged (pos : ℕ)
  | isModifiedChanged
deriving DecidableEq

/-- Clamp of a rational: `std::min(hi, std::max(lo, v))`. -/
def clampQ (lo hi v : ℚ) : ℚ := min hi (max lo v)

/-- Clamp of an integer: `std::min(hi, std::max(lo, v))`. -/
def clampZ (lo hi v : ℤ) : ℤ := min hi (max lo v)

/-- The resizing step of `Sequence::validatePoint`: pad a coordinate vector
with 0.0 up to `dim` entries, or truncate it down to `dim` entries. -/
def resizeToDim (dim : ℕ) (pt : List ℚ) : List ℚ :=
  if pt.length < dim then pt ++ List.replicate (dim - pt.length) 0
  else pt.take dim

/-- `Sequence::validatePoint(p, skipLimits)`: resize the coordinate vector
to `pointDim`, then (unless `skipLimits`) clamp every coordinate, the
duration and the timeToTarget into the `[min, max]` ranges. -/
def Sequence.validatePoint (s : Sequence) (p : SequencePoint) (skipLimits : Bool) :
    SequencePoint :=
  let pt := resizeToDim s.pointDim p.point
  if skipLimits then { p with point := pt }
  else
    { point := (List.range s.pointDim).map fun i =>
        clampQ (s.min.point.getD i 0) (s.max.point.getD i 0) (pt.getD i 0)
      duration := clampZ s.min.duration s.max.duration p.duration
      timeToTarget := clampZ s.min.timeToTarget s.max.timeToTarget p.timeToTarget }

/-- The constructor `Sequence(pointDim, minVals, maxVals)`: bounds are
resized to `pointDim` (validatePoint with skipLimits = true, which only
touches the coordinate vector's length), the list starts empty, the cursor
at -1 and the modified flag false. -/
def mkSequence (pointDim : ℕ) (minVals maxVals : SequencePoint) : Sequence :=
  { pointDim := pointDim
    min := { minVals with point := resizeToDim pointDim minVals.point }
    max := { maxVals with point := resizeToDim pointDim maxVals.point }
    seq := []
    curPoint := -1
    isModified := false }

/-- The default-constructed `Sequence()`: pointDim 0, default bounds,
empty list, cursor -1, not modified. This is the value the loader returns
on malformed input (modelled as `none` by `Sequence.load`). -/
def defaultSequence : Sequence := mkSequence 0 default default

/-- The file-scope helper `defaultSequencePoint(sequence)`: coordinates and
duration are the averages of the min and max bounds (integer division
truncating toward zero, as in C++); the timeToTarget field is left at its
default-constructed value. -/
def defaultSequencePoint (s : Sequence) : SequencePoint :=
  { point := (List.range s.pointDim).map fun i =>
      (s.max.point.getD i 0 + s.min.point.getD i 0) / 2
    duration := Int.tdiv (s.max.duration + s.min.duration) 2
    timeToTarget := (default : SequencePoint).timeToTarget }

/-- `Sequence::pointCoordinate(c)` (current-point overload): 0.0 sentinel
when there is no current point. -/
def Sequence.pointCoordinateCur (s : Sequence) (c : ℕ) : ℚ :=
  if s.curPoint < 0 then 0
  else (s.seq.getD s.curPoint.toNat default).point.getD c 0

/-- `Sequence::pointDuration()` (current-point overload): 0 sentinel when
there is no current point. -/
def Sequence.pointDurationCur (s : Sequence) : ℤ :=
  if s.curPoint < 0 then 0
  else (s.seq.getD s.curPoint.toNat default).duration

/-- `Sequence::pointTimeToTarget()` (current-point overload): 0 sentinel
when there is no current point. -/
def Sequence.pointTimeToTargetCur (s : Sequence) : ℤ :=
  if s.curPoint < 0 then 0
  else (s.seq.getD s.curPoint.toNat default).timeToTarget

/-- `Sequence::point()` (current-point overload). The C++ body is
`return m_sequence[m_curPoint];` with no guard, so when the index is not a
valid position the access is out of bounds; that is modelled as `none`. -/
def Sequence.pointAcc (s : Sequence) : Option SequencePoint :=
  if 0 ≤ s.curPoint ∧ s.curPoint < (s.seq.length : ℤ) then
    some (s.seq.getD s.curPoint.toNat default)
  else none

/-- `Sequence::sequenceModified()`: set the modified flag, emitting
`isModifiedChanged` only on a false-to-true transition. -/
def Sequence.sequenceModified (s : Sequence) : Sequence × List Signal :=
  if s.isModified then (s, [])
  else ({ s with isModified := true }, [.isModifiedChanged])

/-- `Sequence::setCurPoint(p)`: no-op on an empty sequence; otherwise clamp
`p` into `[0, length-1]` and emit `curPointChanged` if the cursor moved. -/
def Sequence.setCurPoint (s : Sequence) (p : ℤ) : Sequence × List Signal :=
  if s.seq.isEmpty then (s, [])
  else
    let q : ℤ :=
      if p < 0 then 0
      else if (s.seq.length : ℤ) ≤ p then (s.seq.length : ℤ) - 1
      else p
    if q ≠ s.curPoint then ({ s with curPoint := q }, [.curPointChanged])
    else (s, [])

/-- `Sequence::insertAfterCurrent()`: on cursor -1 append the validated
default point, otherwise insert a validated copy of the current point right
after the cursor; then advance the cursor. Signals: numPointsChanged,
curPointChanged, then the modified transition. -/
def Sequence.insertAfterCurrent (s : Sequence) : Sequence × List Signal :=
  if ¬ s.isValid then (s, [])
  else
    let seq' :=
      if s.curPoint = -1 then s.seq ++ [s.validatePoint (defaultSequencePoint s) false]
      else (s.seq.insertIdx (s.curPoint + 1).toNat
        (s.validatePoint (s.seq.getD s.curPoint.toNat default) false))
    let s₁ := { s with seq := seq', curPoint := s.curPoint + 1 }
    let m := s₁.sequenceModified
    (m.1, [.numPointsChanged, .curPointChanged] ++ m.2)

/-- `Sequence::insertBeforeCurrent()`: on cursor -1 append the validated
default point and set the cursor to 0 (emitting `curPointChanged` at that
point, before `numPointsChanged`); otherwise insert a validated copy of the
current point at the cursor's position. Then `numPointsChanged` (in the
non-empty branch) and always `curPointValuesChanged`, then the modified
transition. -/
def Sequence.insertBeforeCurrent (s : Sequence) : Sequence × List Signal :=
  if ¬ s.isValid then (s, [])
  else if s.curPoint = -1 then
    let seq' := s.seq ++ [s.validatePoint (defaultSequencePoint s) false]
    let s₁ := { s with seq := seq', curPoint := 0 }
    let m := s₁.sequenceModified
    (m.1, [.curPointChanged, .numPointsChanged, .curPointValuesChanged] ++ m.2)
  else
    let np := s.validatePoint (s.seq.getD s.curPoint.toNat default) false
    let s₁ := { s with seq := s.seq.insertIdx s.curPoint.toNat np }
    let m := s₁.sequenceModified
    (m.1, [.numPointsChanged, .curPointValuesChanged] ++ m.2)

/-- `Sequence::append()`: append a validated copy of the current point (or
of the default point when there is none) and move the cursor to the last
index. Signals: numPointsChanged, curPointChanged, modified transition. -/
def Sequence.append (s : Sequence) : Sequence × List Signal :=
  if ¬ s.isValid then (s, [])
  else
    let p := if s.curPoint = -1 then defaultSequencePoint s
             else s.seq.getD s.curPoint.toNat default
    let seq' := s.seq ++ [s.validatePoint p false]
    let s₁ := { s with seq := seq', curPoint := (seq'.length : ℤ) - 1 }
    let m := s₁.sequenceModified
    (m.1, [.numPointsChanged, .curPointChanged] ++ m.2)

/-- `Sequence::removeCurrent()`: remove the element at the cursor; if the
cursor now reaches past the shortened list, clamp it to `length - 1`
(which is -1 on an emptied list) and emit `curPointChanged`, otherwise emit
`curPointValuesChanged`. `numPointsChanged` always comes first, then the
modified transition last. -/
def Sequence.removeCurrent (s : Sequence) : Sequence × List Signal :=
  if ¬ s.isValid ∨ s.curPoint = -1 then (s, [])
  else
    let seq' := s.seq.eraseIdx s.curPoint.toNat
    if (seq'.length : ℤ) ≤ s.curPoint then
      let s₁ := { s with seq := seq', curPoint := (seq'.length : ℤ) - 1 }
      let m := s₁.sequenceModified
      (m.1, [.numPointsChanged, .curPointChanged] ++ m.2)
    else
      let s₁ := { s with seq := seq' }
      let m := s₁.sequenceModified
      (m.1, [.numPointsChanged, .curPointValuesChanged] ++ m.2)

/-- `Sequence::clear()`: empty the list and reset the cursor to -1 when the
list was non-empty (signaling numPointsChanged then curPointChanged); mark
modified unconditionally. -/
def Sequence.clear (s : Sequence) : Sequence × List Signal :=
  if ¬ s.isValid then (s, [])
  else if s.seq.isEmpty then
    let m := s.sequenceModified
    (m.1, m.2)
  else
    let s₁ := { s with seq := [], curPoint := -1 }
    let m := s₁.sequenceModified
    (m.1, [.numPointsChanged, .curPointChanged] ++ m.2)

/-- `Sequence::setPoint(pos, p)`: store the validated point at `pos`; if
the stored value actually changed, emit pointValuesChanged(pos), then
curPointValuesChanged when `pos` is the cursor, then the modified
transition. -/
def Sequence.setPoint (s : Sequence) (pos : ℕ) (p : SequencePoint) : Sequence × List Signal :=
  if ¬ s.isValid then (s, [])
  else
    let old := s.seq.getD pos default
    let newP := s.validatePoint p false
    let s₁ := { s with seq := s.seq.set pos newP }
    if old = newP then (s₁, [])
    else
      let m := s₁.sequenceModified
      (m.1, [Signal.pointValuesChanged pos] ++
        (if (pos : ℤ) = s.curPoint then [Signal.curPointValuesChanged] else []) ++ m.2)

/-- `Sequence::setPointCoordinate(pos, c, v)`: clamp `v` into the
`[min, max]` range of coordinate `c` and store it; same signal pattern as
`setPoint` when the value changed. -/
def Sequence.setPointCoordinate (s : Sequence) (pos c : ℕ) (v : ℚ) : Sequence × List Signal :=
  if ¬ s.isValid then (s, [])
  else
    let oldP := s.seq.getD pos default
    let old := oldP.point.getD c 0
    let newV := clampQ (s.min.point.getD c 0) (s.max.point.getD c 0) v
    let s₁ := { s with seq := s.seq.set pos { oldP with point := oldP.point.set c newV } }
    if old = newV then (s₁, [])
    else
      let m := s₁.sequenceModified
      (m.1, [Signal.pointValuesChanged pos] ++
        (if (pos : ℤ) = s.curPoint then [Signal.curPointValuesChanged] else []) ++ m.2)

/-- `Sequence::setDuration(pos, d)`: clamp `d` into the duration range and
store it; same signal pattern as `setPoint` when the value changed. -/
def Sequence.setDuration (s : Sequence) (pos : ℕ) (d : ℤ) : Sequence × List Signal :=
  if ¬ s.isValid then (s, [])
  else
    let oldP := s.seq.getD pos default
    let old := oldP.duration
    let newV := clampZ s.min.duration s.max.duration d
    let s₁ := { s with seq := s.seq.set pos { oldP with duration := newV } }
    if old = newV then (s₁, [])
    else
      let m := s₁.sequenceModified
      (m.1, [Signal.pointValuesChanged pos] ++
        (if (pos : ℤ) = s.curPoint then [Signal.curPointValuesChanged] else []) ++ m.2)

/-- `Sequence::setTimeToTarget(pos, t)`: clamp `t` into the timeToTarget
range and store it; same signal pattern as `setPoint` when the value
changed. -/
def Sequence.setTimeToTarget (s : Sequence) (pos : ℕ) (t : ℤ) : Sequence × List Signal :=
  if ¬ s.isValid then (s, [])
  else
    let oldP := s.seq.getD pos default
    let old := oldP.timeToTarget
    let newV := clampZ s.min.timeToTarget s.max.timeToTarget t
    let s₁ := { s with seq := s.seq.set pos { oldP with timeToTarget := newV } }
    if old = newV then (s₁, [])
    else
      let m := s₁.sequenceModified
      (m.1, [Signal.pointValuesChanged pos] ++
        (if (pos : ℤ) = s.curPoint then [Signal.curPointValuesChanged] else []) ++ m.2)

/-- `Sequence::setPoint(p)` (current-point overload): silent no-op when
there is no current point. -/
def Sequence.setPointCur (s : Sequence) (p : SequencePoint) : Sequence × List Signal :=
  if s.curPoint < 0 then (s, []) else s.setPoint s.curPoint.toNat p

/-- `Sequence::setPointCoordinate(c, v)` (current-point overload). -/
def Sequence.setPointCoordinateCur (s : Sequence) (c : ℕ) (v : ℚ) : Sequence × List Signal :=
  if s.curPoint < 0 then (s, []) else s.setPointCoordinate s.curPoint.toNat c v

/-- `Sequence::setDuration(d)` (current-point overload). -/
def Sequence.setDurationCur (s : Sequence) (d : ℤ) : Sequence × List Signal :=
  if s.curPoint < 0 then (s, []) else s.setDuration s.curPoint.toNat d

/-- `Sequence::setTimeToTarget(t)` (current-point overload). -/
def Sequence.setTimeToTargetCur (s : Sequence) (t : ℤ) : Sequence × List Signal :=
  if s.curPoint < 0 then (s, []) else s.setTimeToTarget s.curPoint.toNat t

/-- First value stored under a key in a JSON object's field list (Qt
objects hold at most one value per key; first match is taken). -/
def lookupKey (fields : List (JKey × Json)) (k : JKey) : Option Json :=
  (fields.find? fun kv => kv.1 = k).map fun kv => kv.2

/-- Read a JSON value as an array of numbers, failing on anything else. -/
def asNumList : Json → Option (List ℚ)
  | .arr xs => xs.mapM fun j => match j with
      | .num q => some q
      | _ => none
  | _ => none

/-- Read a JSON value as an integer, failing on non-numbers and on numbers
with a fractional part. -/
def asInt : Json → Option ℤ
  | .num q => if q.den = 1 then some q.num else none
  | _ => none

/-- Modelled from the spec: `SequencePoint::fromJson` (sequencepoint.cpp is
not among the given sources) parses `point` as an array of numbers and
`duration` and `timeToTarget` as integers from a JSON object, failing when
any of the three fields is missing or has the wrong type. -/
def SequencePoint.fromJson (fields : List (JKey × Json)) : Option SequencePoint := do
  let pt ← (lookupKey fields .point).bind asNumList
  let d ← (lookupKey fields .duration).bind asInt
  let t ← (lookupKey fields .timeToTarget).bind asInt
  pure ⟨pt, d, t⟩

/-- Modelled from the spec: `SequencePoint::toJson` writes the three fields
back as a JSON object (the inverse serialization; always succeeds). -/
def SequencePoint.toJson (p : SequencePoint) : Json :=
  Json.obj [(JKey.point, Json.arr (p.point.map Json.num)),
            (JKey.duration, Json.num p.duration),
            (JKey.timeToTarget, Json.num p.timeToTarget)]

/-- Parse of one array element inside `Sequence::load`: the element must be
a JSON object and `SequencePoint::fromJson` must accept it. -/
def elemParse : Json → Option SequencePoint
  | .obj fields => SequencePoint.fromJson fields
  | _ => none

/-- The loop of `Sequence::load`: walk the array elements carrying the
min/max candidates, the accumulated point list, the dimension seen so far
(-1 before the first element) and the element index. `none` models the
`error = true` break. -/
def loadElems : List Json → SequencePoint → SequencePoint → List SequencePoint → ℤ → ℤ →
    Option (SequencePoint × SequencePoint × List SequencePoint × ℤ × ℤ)
  | [], minP, maxP, acc, dim, index => some (minP, maxP, acc, dim, index)
  | j :: rest, minP, maxP, acc, dim, index =>
    match elemParse j with
    | none => none
    | some sp =>
      let minP' := if index = 0 then sp else minP
      let maxP' := if index = 1 then sp else maxP
      let acc' := if index = 0 ∨ index = 1 then acc else acc ++ [sp]
      if dim ≠ -1 ∧ dim ≠ (sp.point.length : ℤ) then none
      else loadElems rest minP' maxP' acc' (sp.point.length : ℤ) (index + 1)

/-- `Sequence::load(QJsonDocument)`: expects an array; element 0 is the min
bound, element 1 the max bound, the rest the point list (validated on
insertion); fails on a non-array, on a bad element, on a dimension mismatch
or on an empty array. `none` models the default invalid Sequence returned
on failure. -/
def Sequence.load (j : Json) : Option Sequence :=
  match j with
  | .arr elems =>
    match loadElems elems default default [] (-1) 0 with
    | none => none
    | some (minP, maxP, list, dim, index) =>
      if index < 1 then none
      else
        let s := mkSequence dim.toNat minP maxP
        some { s with seq := list.map fun sp => s.validatePoint sp false
                      curPoint := if list.isEmpty then -1 else 0 }
  | _ => none

/-- `Sequence::save()` (in-memory overload): an invalid Sequence serializes
to a null document; a valid one to the array min, max, points in order,
clearing the modified flag as a side effect. The pair returned is the
document together with the state after the call. -/
def Sequence.saveJson (s : Sequence) : Json × Sequence :=
  if s.isValid then
    (Json.arr (s.min.toJson :: s.max.toJson :: s.seq.map SequencePoint.toJson),
     { s with isModified := false })
  else (Json.null, s)

/-- `Sequence::save(filename)`: fails on an invalid Sequence; serializes
in memory (restoring the modified flag the in-memory save cleared), then
fails if the file cannot be opened (`openOk` false) or the write reports an
error (`writeOk` false), clearing the modified flag only on full success.
The two Booleans are oracles for the file-system outcomes. -/
def Sequence.saveFile (s : Sequence) (openOk writeOk : Bool) : Bool × Sequence :=
  if ¬ s.isValid then (false, s)
  else
    let oldIsModified := s.isModified
    let s₁ := s.saveJson.2
    let s₂ := { s₁ with isModified := oldIsModified }
    if ¬ openOk then (false, s₂)
    else if ¬ writeOk then (false, s₂)
    else (true, { s₂ with isModified := false })

/-- One mutator call, with its arguments: the operations named by the
spec's invariants. -/
inductive Mutator where
  | setCurPoint (p : ℤ)
  | insertAfterCurrent
  | insertBeforeCurrent
  | append
  | removeCurrent
  | clear
  | setPoint (pos : ℕ) (p : SequencePoint)
  | setPointCoordinate (pos c : ℕ) (v : ℚ)
  | setDuration (pos : ℕ) (d : ℤ)
  | setTimeToTarget (pos : ℕ) (t : ℤ)
  | setPointCur (p : SequencePoint)
  | setPointCoordinateCur (c : ℕ) (v : ℚ)
  | setDurationCur (d : ℤ)
  | setTimeToTargetCur (t : ℤ)

/-- Dispatch of one mutator call on a state. -/
def applyMutator : Mutator → Sequence → Sequence × List Signal
  | .setCurPoint p, s => s.setCurPoint p
  | .insertAfterCurrent, s => s.insertAfterCurrent
  | .insertBeforeCurrent, s => s.insertBeforeCurrent
  | .append, s => s.append
  | .removeCurrent, s => s.removeCurrent
  | .clear, s => s.clear
  | .setPoint pos p, s => s.setPoint pos p
  | .setPointCoordinate pos c v, s => s.setPointCoordinate pos c v
  | .setDuration pos d, s => s.setDuration pos d
  | .setTimeToTarget pos t, s => s.setTimeToTarget pos t
  | .setPointCur p, s => s.setPointCur p
  | .setPointCoordinateCur c v, s => s.setPointCoordinateCur c v
  | .setDurationCur d, s => s.setDurationCur d
  | .setTimeToTargetCur t, s => s.setTimeToTargetCur t

/-- States reachable from a constructor call or a successful load through
any series of mutator calls. -/
inductive Reachable : Sequence → Prop
  | construct (dim : ℕ) (minV maxV : SequencePoint) : Reachable (mkSequence dim minV maxV)
  | loaded (j : Json) (s : Sequence) : Sequence.load j = some s → Reachable s
  | step (s : Sequence) (m : Mutator) : Reachable s → Reachable (applyMutator m s).1

/-- Cursor well-formedness: -1 exactly on an empty list, otherwise a valid
index. -/
def curOK (s : Sequence) : Prop :=
  (s.seq = [] → s.curPoint = -1) ∧
  (s.seq ≠ [] → 0 ≤ s.curPoint ∧ s.curPoint < (s.seq.length : ℤ))

/-- Bounds sanity assumed by the spec: min ≤ max in every component. -/
def boundsOK (s : Sequence) : Prop :=
  (∀ i < s.pointDim, s.min.point.getD i 0 ≤ s.max.point.getD i 0) ∧
  s.min.duration ≤ s.max.duration ∧ s.min.timeToTarget ≤ s.max.timeToTarget

/-- A point is in range for a sequence: it has exactly `pointDim`
coordinates and every coordinate, the duration and the timeToTarget lie in
the inclusive `[min, max]` ranges. -/
def inRange (s : Sequence) (p : SequencePoint) : Prop :=
  p.point.length = s.pointDim ∧
  (∀ i < s.pointDim,
    s.min.point.getD i 0 ≤ p.point.getD i 0 ∧ p.point.getD i 0 ≤ s.max.point.getD i 0) ∧
  (s.min.duration ≤ p.duration ∧ p.duration ≤ s.max.duration) ∧
  (s.min.timeToTarget ≤ p.timeToTarget ∧ p.timeToTarget ≤ s.max.timeToTarget)

/-- Normalized bounds, as established by the constructor: the coordinate
vectors of min and max have exactly `pointDim` entries. -/
def normBounds (s : Sequence) : Prop :=
  s.min.point.length = s.pointDim ∧ s.max.point.length = s.pointDim

/-- Test on a JSON value being an object. -/
def Json.isObject : Json → Bool
  | .obj _ => true
  | _ => false

/-- The failure condition of `Sequence::load` as the spec states it: the
document is not an array, or some element is not an object, or some element
fails `SequencePoint::fromJson`, or some element's point dimension
disagrees with the first element's, or the array is empty. -/
def loadFailSpec (j : Json) : Prop :=
  match j with
  | Json.arr elems =>
    elems.length = 0 ∨
    (∃ e ∈ elems, e.isObject = false) ∨
    (∃ e ∈ elems, elemParse e = none) ∨
    (∃ e0 p0, elems.head? = some e0 ∧ elemParse e0 = some p0 ∧
      ∃ e ∈ elems, ∃ p, elemParse e = some p ∧ p.point.length ≠ p0.point.length)
  | _ => True


instance (s : Sequence) : Decidable (boundsOK s) := by
  unfold boundsOK
  infer_instance

instance (s : Sequence) (p : SequencePoint) : Decidable (inRange s p) := by
  unfold inRange
  infer_instance

instance (s : Sequence) : Decidable (curOK s) := by
  unfold curOK
  infer_instance

instance (s : Sequence) : Decidable (normBounds s) := by
  unfold normBounds
  infer_instance


lemma clampQ_mem (lo hi v : ℚ) (h : lo ≤ hi) : lo ≤ clampQ lo hi v ∧ clampQ lo hi v ≤ hi :=
  ⟨le_min h (le_max_left lo v), min_le_left hi _⟩

lemma clampZ_mem (lo hi v : ℤ) (h : lo ≤ hi) : lo ≤ clampZ lo hi v ∧ clampZ lo hi v ≤ hi :=
  ⟨le_min h (le_max_left lo v), min_le_left hi _⟩

lemma clampQ_eq_self (lo hi v : ℚ) (h1 : lo ≤ v) (h2 : v ≤ hi) : clampQ lo hi v = v := by
  unfold clampQ
  rw [max_eq_right h1, min_eq_right h2]

lemma clampZ_eq_self (lo hi v : ℤ) (h1 : lo ≤ v) (h2 : v ≤ hi) : clampZ lo hi v = v := by
  unfold clampZ
  rw [max_eq_right h1, min_eq_right h2]

/-- The midpoint with C++ truncating integer division lies between the
endpoints. -/
lemma tdiv_two_mem (a b : ℤ) (h : a ≤ b) :
    a ≤ Int.tdiv (a + b) 2 ∧ Int.tdiv (a + b) 2 ≤ b := by
  rcases le_or_lt 0 (a + b) with hn | hn
  · rw [Int.tdiv_eq_ediv hn (by decide)]
    omega
  · have h1 : Int.tdiv (a + b) 2 = - Int.tdiv (-(a + b)) 2 := by
      rw [← Int.neg_tdiv]
      ring_nf
    rw [h1, Int.tdiv_eq_ediv (by omega) (by decide)]
    omega

@[simp] lemma resizeToDim_length (dim : ℕ) (pt : List ℚ) :
    (resizeToDim dim pt).length = dim := by
  unfold resizeToDim
  split_ifs with h
  · simp only [List.length_append, List.length_replicate]
    omega
  · simp only [List.length_take]
    omega

lemma resizeToDim_eq_self (dim : ℕ) (pt : List ℚ) (h : pt.length = dim) :
    resizeToDim dim pt = pt := by
  unfold resizeToDim
  split_ifs with h'
  · omega
  · rw [← h, List.take_length]

lemma getD_range_map {α} (f : ℕ → α) (n i : ℕ) (d : α) (h : i < n) :
    ((List.range n).map f).getD i d = f i := by
  rw [List.getD_eq_getElem?_getD, List.getElem?_map, List.getElem?_range h]
  rfl

@[simp] lemma validatePoint_length (s : Sequence) (p : SequencePoint) :
    (s.validatePoint p false).point.length = s.pointDim := by
  simp [Sequence.validatePoint]

lemma validatePoint_getD (s : Sequence) (p : SequencePoint) (i : ℕ) (h : i < s.pointDim) :
    (s.validatePoint p false).point.getD i 0 =
      clampQ (s.min.point.getD i 0) (s.max.point.getD i 0)
        ((resizeToDim s.pointDim p.point).getD i 0) := by
  simp only [Sequence.validatePoint, if_neg (by simp : ¬ (false = true))]
  exact getD_range_map _ s.pointDim i 0 h

lemma validatePoint_duration (s : Sequence) (p : SequencePoint) :
    (s.validatePoint p false).duration = clampZ s.min.duration s.max.duration p.duration := rfl

lemma validatePoint_timeToTarget (s : Sequence) (p : SequencePoint) :
    (s.validatePoint p false).timeToTarget =
      clampZ s.min.timeToTarget s.max.timeToTarget p.timeToTarget := rfl

/-- Any output of the validating normalization is in range, as soon as the
bounds are sane. -/
lemma validatePoint_inRange (s : Sequence) (p : SequencePoint) (hb : boundsOK s) :
    inRange s (s.validatePoint p false) := by
  obtain ⟨hbc, hbd, hbt⟩ := hb
  refine ⟨validatePoint_length s p, ?_, ?_, ?_⟩
  · intro i hi
    rw [validatePoint_getD s p i hi]
    exact clampQ_mem _ _ _ (hbc i hi)
  · rw [validatePoint_duration]
    exact clampZ_mem _ _ _ hbd
  · rw [validatePoint_timeToTarget]
    exact clampZ_mem _ _ _ hbt

/-- Validation is the identity on points that are already in range. -/
lemma validatePoint_eq_self (s : Sequence) (p : SequencePoint) (hp : inRange s p) :
    s.validatePoint p false = p := by
  obtain ⟨hl, hc, hd, ht⟩ := hp
  have hpt : (s.validatePoint p false).point = p.point := by
    apply List.ext_getElem
    · simp [hl]
    · intro i h1 h2
      have hi : i < s.pointDim := by simpa using h1
      have e1 : (s.validatePoint p false).point[i] =
          (s.validatePoint p false).point.getD i 0 :=
        (List.getD_eq_getElem _ 0 h1).symm
      have e2 : p.point[i] = p.point.getD i 0 := (List.getD_eq_getElem _ 0 h2).symm
      rw [e1, e2, validatePoint_getD s p i hi, resizeToDim_eq_self _ _ hl,
        clampQ_eq_self _ _ _ (hc i hi).1 (hc i hi).2]
  cases p with
  | mk pt d t =>
    have h1 := validatePoint_duration s ⟨pt, d, t⟩
    have h2 := validatePoint_timeToTarget s ⟨pt, d, t⟩
    cases hv : s.validatePoint ⟨pt, d, t⟩ false with
    | mk pt' d' t' =>
      rw [hv] at hpt h1 h2
      simp only at hpt h1 h2
      simp only [hpt, h1, h2]
      rw [clampZ_eq_self _ _ _ hd.1 hd.2, clampZ_eq_self _ _ _ ht.1 ht.2]

lemma validatePoint_congr (s t : Sequence) (p : SequencePoint)
    (h1 : s.pointDim = t.pointDim) (h2 : s.min = t.min) (h3 : s.max = t.max) :
    s.validatePoint p false = t.validatePoint p false := by
  unfold Sequence.validatePoint
  rw [h1, h2, h3]

lemma inRange_congr (s t : Sequence) (p : SequencePoint)
    (h1 : s.pointDim = t.pointDim) (h2 : s.min = t.min) (h3 : s.max = t.max) :
    inRange s p ↔ inRange t p := by
  unfold inRange
  rw [h1, h2, h3]

@[simp] lemma sequenceModified_pointDim (s : Sequence) :
    (s.sequenceModified).1.pointDim = s.pointDim := by
  unfold Sequence.sequenceModified
  split <;> rfl

@[simp] lemma sequenceModified_min (s : Sequence) :
    (s.sequenceModified).1.min = s.min := by
  unfold Sequence.sequenceModified
  split <;> rfl

@[simp] lemma sequenceModified_max (s : Sequence) :
    (s.sequenceModified).1.max = s.max := by
  unfold Sequence.sequenceModified
  split <;> rfl

@[simp] lemma sequenceModified_seq (s : Sequence) :
    (s.sequenceModified).1.seq = s.seq := by
  unfold Sequence.sequenceModified
  split <;> rfl

@[simp] lemma sequenceModified_curPoint (s : Sequence) :
    (s.sequenceModified).1.curPoint = s.curPoint := by
  unfold Sequence.sequenceModified
  split <;> rfl

@[simp] lemma sequenceModified_isModified (s : Sequence) :
    (s.sequenceModified).1.isModified = true := by
  unfold Sequence.sequenceModified
  split
  · next h => exact h
  · rfl

lemma mem_insertIdx_any {α} {l : List α} {n : ℕ} {a q : α} (h : q ∈ l.insertIdx n a) :
    q = a ∨ q ∈ l := by
  induction l generalizing n with
  | nil =>
    cases n with
    | zero =>
      rw [List.insertIdx_zero] at h
      rcases List.mem_cons.1 h with h1 | h1
      · exact Or.inl h1
      · exact Or.inr h1
    | succ k =>
      simp [List.insertIdx] at h
  | cons x xs ih =>
    cases n with
    | zero =>
      rw [List.insertIdx_zero] at h
      rcases List.mem_cons.1 h with h1 | h1
      · exact Or.inl h1
      · exact Or.inr h1
    | succ k =>
      rw [List.insertIdx_succ_cons] at h
      rcases List.mem_cons.1 h with h1 | h1
      · exact Or.inr (List.mem_cons.2 (Or.inl h1))
      · rcases ih h1 with h2 | h2
        · exact Or.inl h2
        · exact Or.inr (List.mem_cons.2 (Or.inr h2))

lemma getD_mem_of_lt {α} (l : List α) (n : ℕ) (d : α) (h : n < l.length) :
    l.getD n d ∈ l := by
  rw [List.getD_eq_getElem l d h]
  exact List.getElem_mem h

lemma getD_set {α} (l : List α) (n i : ℕ) (a d : α) :
    (l.set n a).getD i d = if n = i ∧ n < l.length then a else l.getD i d := by
  rw [List.getD_eq_getElem?_getD, List.getElem?_set, List.getD_eq_getElem?_getD]
  by_cases h1 : n = i
  · subst h1
    by_cases h2 : n < l.length
    · simp [h2]
    · have hn : l[n]? = none := List.getElem?_eq_none (by omega)
      simp [h2, hn]
  · simp [h1]

lemma applyMutator_pointDim (m : Mutator) (s : Sequence) :
    (applyMutator m s).1.pointDim = s.pointDim := by
  cases m <;>
    simp only [applyMutator, Sequence.setCurPoint, Sequence.insertAfterCurrent,
      Sequence.insertBeforeCurrent, Sequence.append, Sequence.removeCurrent, Sequence.clear,
      Sequence.setPoint, Sequence.setPointCoordinate, Sequence.setDuration,
      Sequence.setTimeToTarget, Sequence.setPointCur, Sequence.setPointCoordinateCur,
      Sequence.setDurationCur, Sequence.setTimeToTargetCur] <;>
    (try split_ifs) <;>
    simp

lemma applyMutator_min (m : Mutator) (s : Sequence) :
    (applyMutator m s).1.min = s.min := by
  cases m <;>
    simp only [applyMutator, Sequence.setCurPoint, Sequence.insertAfterCurrent,
      Sequence.insertBeforeCurrent, Sequence.append, Sequence.removeCurrent, Sequence.clear,
      Sequence.setPoint, Sequence.setPointCoordinate, Sequence.setDuration,
      Sequence.setTimeToTarget, Sequence.setPointCur, Sequence.setPointCoordinateCur,
      Sequence.setDurationCur, Sequence.setTimeToTargetCur] <;>
    (try split_ifs) <;>
    simp

lemma applyMutator_max (m : Mutator) (s : Sequence) :
    (applyMutator m s).1.max = s.max := by
  cases m <;>
    simp only [applyMutator, Sequence.setCurPoint, Sequence.insertAfterCurrent,
      Sequence.insertBeforeCurrent, Sequence.append, Sequence.removeCurrent, Sequence.clear,
      Sequence.setPoint, Sequence.setPointCoordinate, Sequence.setDuration,
      Sequence.setTimeToTarget, Sequence.setPointCur, Sequence.setPointCoordinateCur,
      Sequence.setDurationCur, Sequence.setTimeToTargetCur] <;>
    (try split_ifs) <;>
    simp

lemma inRange_set_coord (s : Sequence) (hb : boundsOK s) (p : SequencePoint)
    (hp : inRange s p) (c : ℕ) (v : ℚ) :
    inRange s
      { p with point := p.point.set c (clampQ (s.min.point.getD c 0) (s.max.point.getD c 0) v) } := by
  obtain ⟨hl, hc, hd, ht⟩ := hp
  refine ⟨by simpa using hl, ?_, hd, ht⟩
  intro i hi
  rw [getD_set]
  split_ifs with h
  · obtain ⟨rfl, hlen⟩ := h
    exact clampQ_mem _ _ _ (hb.1 c hi)
  · exact hc i hi

lemma inRange_set_dur (s : Sequence) (hb : boundsOK s) (p : SequencePoint)
    (hp : inRange s p) (d : ℤ) :
    inRange s { p with duration := clampZ s.min.duration s.max.duration d } :=
  ⟨hp.1, hp.2.1, clampZ_mem _ _ _ hb.2.1, hp.2.2.2⟩

lemma inRange_set_ttt (s : Sequence) (hb : boundsOK s) (p : SequencePoint)
    (hp : inRange s p) (t : ℤ) :
    inRange s { p with timeToTarget := clampZ s.min.timeToTarget s.max.timeToTarget t } :=
  ⟨hp.1, hp.2.1, hp.2.2.1, clampZ_mem _ _ _ hb.2.2⟩

lemma setPoint_mem (s : Sequence) (pos : ℕ) (p : SequencePoint) (hb : boundsOK s)
    (hinv : ∀ p' ∈ s.seq, inRange s p') :
    ∀ q ∈ (s.setPoint pos p).1.seq, inRange s q := by
  intro q hq
  by_cases hv : s.isValid
  · simp only [Sequence.setPoint, if_neg (not_not_intro hv)] at hq
    split_ifs at hq <;> simp only [sequenceModified_seq] at hq <;>
    · rcases List.mem_or_eq_of_mem_set hq with h | h
      · exact hinv q h
      · exact h ▸ validatePoint_inRange s p hb
  · simp only [Sequence.setPoint, if_pos hv] at hq
    exact hinv q hq

lemma setPointCoordinate_mem (s : Sequence) (pos c : ℕ) (v : ℚ) (hb : boundsOK s)
    (hinv : ∀ p' ∈ s.seq, inRange s p') :
    ∀ q ∈ (s.setPointCoordinate pos c v).1.seq, inRange s q := by
  intro q hq
  by_cases hv : s.isValid
  · simp only [Sequence.setPointCoordinate, if_neg (not_not_intro hv)] at hq
    rcases Nat.lt_or_ge pos s.seq.length with hpos | hpos
    · have hmem := getD_mem_of_lt s.seq pos default hpos
      split_ifs at hq <;> simp only [sequenceModified_seq] at hq <;>
      · rcases List.mem_or_eq_of_mem_set hq with h | h
        · exact hinv q h
        · exact h ▸ inRange_set_coord s hb _ (hinv _ hmem) c v
    · rw [List.set_eq_of_length_le hpos] at hq
      split_ifs at hq <;> simp only [sequenceModified_seq] at hq <;>
      · first
        | exact hinv q hq
        | (rw [List.set_eq_of_length_le hpos] at hq; exact hinv q hq)
  · simp only [Sequence.setPointCoordinate, if_pos hv] at hq
    exact hinv q hq

lemma setDuration_mem (s : Sequence) (pos : ℕ) (d : ℤ) (hb : boundsOK s)
    (hinv : ∀ p' ∈ s.seq, inRange s p') :
    ∀ q ∈ (s.setDuration pos d).1.seq, inRange s q := by
  intro q hq
  by_cases hv : s.isValid
  · simp only [Sequence.setDuration, if_neg (not_not_intro hv)] at hq
    rcases Nat.lt_or_ge pos s.seq.length with hpos | hpos
    · have hmem := getD_mem_of_lt s.seq pos default hpos
      split_ifs at hq <;> simp only [sequenceModified_seq] at hq <;>
      · rcases List.mem_or_eq_of_mem_set hq with h | h
        · exact hinv q h
        · exact h ▸ inRange_set_dur s hb _ (hinv _ hmem) d
    · rw [List.set_eq_of_length_le hpos] at hq
      split_ifs at hq <;> simp only [sequenceModified_seq] at hq <;>
      · first
        | exact hinv q hq
        | (rw [List.set_eq_of_length_le hpos] at hq; exact hinv q hq)
  · simp only [Sequence.setDuration, if_pos hv] at hq
    exact hinv q hq

lemma setTimeToTarget_mem (s : Sequence) (pos : ℕ) (t : ℤ) (hb : boundsOK s)
    (hinv : ∀ p' ∈ s.seq, inRange s p') :
    ∀ q ∈ (s.setTimeToTarget pos t).1.seq, inRange s q := by
  intro q hq
  by_cases hv : s.isValid
  · simp only [Sequence.setTimeToTarget, if_neg (not_not_intro hv)] at hq
    rcases Nat.lt_or_ge pos s.seq.length with hpos | hpos
    · have hmem := getD_mem_of_lt s.seq pos default hpos
      split_ifs at hq <;> simp only [sequenceModified_seq] at hq <;>
      · rcases List.mem_or_eq_of_mem_set hq with h | h
        · exact hinv q h
        · exact h ▸ inRange_set_ttt s hb _ (hinv _ hmem) t
    · rw [List.set_eq_of_length_le hpos] at hq
      split_ifs at hq <;> simp only [sequenceModified_seq] at hq <;>
      · first
        | exact hinv q hq
        | (rw [List.set_eq_of_length_le hpos] at hq; exact hinv q hq)
  · simp only [Sequence.setTimeToTarget, if_pos hv] at hq
    exact hinv q hq

/-- Every element of the list after any single mutator call is in range for
the original bounds. -/
lemma applyMutator_mem_inRange (m : Mutator) (s : Sequence) (hb : boundsOK s)
    (hinv : ∀ p ∈ s.seq, inRange s p) :
    ∀ q ∈ (applyMutator m s).1.seq, inRange s q := by
  cases m with
  | setCurPoint p =>
    intro q hq
    have hseq : (applyMutator (Mutator.setCurPoint p) s).1.seq = s.seq := by
      simp only [applyMutator, Sequence.setCurPoint]
      split_ifs <;> rfl
    rw [hseq] at hq
    exact hinv q hq
  | insertAfterCurrent =>
    intro q hq
    by_cases hv : s.isValid
    · simp only [applyMutator, Sequence.insertAfterCurrent, if_neg (not_not_intro hv),
        sequenceModified_seq] at hq
      split_ifs at hq with hc
      · rcases List.mem_append.1 hq with h | h
        · exact hinv q h
        · rw [List.mem_singleton.1 h]
          exact validatePoint_inRange s _ hb
      · rcases mem_insertIdx_any hq with h | h
        · rw [h]
          exact validatePoint_inRange s _ hb
        · exact hinv q h
    · simp only [applyMutator, Sequence.insertAfterCurrent, if_pos hv] at hq
      exact hinv q hq
  | insertBeforeCurrent =>
    intro q hq
    by_cases hv : s.isValid
    · by_cases hc : s.curPoint = -1
      · simp only [applyMutator, Sequence.insertBeforeCurrent, if_neg (not_not_intro hv),
          if_pos hc, sequenceModified_seq] at hq
        rcases List.mem_append.1 hq with h | h
        · exact hinv q h
        · rw [List.mem_singleton.1 h]
          exact validatePoint_inRange s _ hb
      · simp only [applyMutator, Sequence.insertBeforeCurrent, if_neg (not_not_intro hv),
          if_neg hc, sequenceModified_seq] at hq
        rcases mem_insertIdx_any hq with h | h
        · rw [h]
          exact validatePoint_inRange s _ hb
        · exact hinv q h
    · simp only [applyMutator, Sequence.insertBeforeCurrent, if_pos hv] at hq
      exact hinv q hq
  | append =>
    intro q hq
    by_cases hv : s.isValid
    · simp only [applyMutator, Sequence.append, if_neg (not_not_intro hv),
        sequenceModified_seq] at hq
      rcases List.mem_append.1 hq with h | h
      · exact hinv q h
      · rw [List.mem_singleton.1 h]
        exact validatePoint_inRange s _ hb
    · simp only [applyMutator, Sequence.append, if_pos hv] at hq
      exact hinv q hq
  | removeCurrent =>
    intro q hq
    by_cases hg : ¬ s.isValid ∨ s.curPoint = -1
    · simp only [applyMutator, Sequence.removeCurrent, if_pos hg] at hq
      exact hinv q hq
    · simp only [applyMutator, Sequence.removeCurrent, if_neg hg] at hq
      split_ifs at hq <;> simp only [sequenceModified_seq] at hq <;>
        exact hinv q (List.mem_of_mem_eraseIdx hq)
  | clear =>
    intro q hq
    by_cases hv : s.isValid
    · by_cases he : s.seq.isEmpty
      · simp only [applyMutator, Sequence.clear, if_neg (not_not_intro hv), if_pos he,
          sequenceModified_seq] at hq
        exact hinv q hq
      · simp only [applyMutator, Sequence.clear, if_neg (not_not_intro hv), if_neg he,
          sequenceModified_seq] at hq
        exact absurd hq (List.not_mem_nil q)
    · simp only [applyMutator, Sequence.clear, if_pos hv] at hq
      exact hinv q hq
  | setPoint pos p =>
    exact setPoint_mem s pos p hb hinv
  | setPointCoordinate pos c v =>
    exact setPointCoordinate_mem s pos c v hb hinv
  | setDuration pos d =>
    exact setDuration_mem s pos d hb hinv
  | setTimeToTarget pos t =>
    exact setTimeToTarget_mem s pos t hb hinv
  | setPointCur p =>
    intro q hq
    simp only [applyMutator, Sequence.setPointCur] at hq
    split_ifs at hq
    · exact hinv q hq
    · exact setPoint_mem s _ p hb hinv q hq
  | setPointCoordinateCur c v =>
    intro q hq
    simp only [applyMutator, Sequence.setPointCoordinateCur] at hq
    split_ifs at hq
    · exact hinv q hq
    · exact setPointCoordinate_mem s _ c v hb hinv q hq
  | setDurationCur d =>
    intro q hq
    simp only [applyMutator, Sequence.setDurationCur] at hq
    split_ifs at hq
    · exact hinv q hq
    · exact setDuration_mem s _ d hb hinv q hq
  | setTimeToTargetCur t =>
    intro q hq
    simp only [applyMutator, Sequence.setTimeToTargetCur] at hq
    split_ifs at hq
    · exact hinv q hq
    · exact setTimeToTarget_mem s _ t hb hinv q hq

lemma curOK_of (s : Sequence)
    (h : (s.seq.length = 0 ∧ s.curPoint = -1) ∨
      (0 ≤ s.curPoint ∧ s.curPoint < (s.seq.length : ℤ))) : curOK s := by
  rcases h with ⟨h1, h2⟩ | ⟨h1, h2⟩
  · exact ⟨fun _ => h2, fun hne => absurd (List.length_eq_zero.1 h1) hne⟩
  · constructor
    · intro he
      rw [he] at h2
      simp at h2
      omega
    · intro _
      exact ⟨h1, h2⟩

lemma curOK_elim (s : Sequence) (h : curOK s) :
    (s.seq.length = 0 ∧ s.curPoint = -1) ∨
      (0 ≤ s.curPoint ∧ s.curPoint < (s.seq.length : ℤ)) := by
  by_cases he : s.seq = []
  · exact Or.inl ⟨by rw [he]; rfl, h.1 he⟩
  · exact Or.inr (h.2 he)

lemma curOK_congr (s t : Sequence) (hl : t.seq.length = s.seq.length)
    (hc : t.curPoint = s.curPoint) (h : curOK s) : curOK t := by
  apply curOK_of
  rcases curOK_elim s h with ⟨h1, h2⟩ | ⟨h1, h2⟩
  · exact Or.inl ⟨by omega, by omega⟩
  · exact Or.inr ⟨by omega, by omega⟩

lemma setPoint_shape (s : Sequence) (pos : ℕ) (p : SequencePoint) :
    (s.setPoint pos p).1.seq.length = s.seq.length ∧
      (s.setPoint pos p).1.curPoint = s.curPoint := by
  simp only [Sequence.setPoint]
  split_ifs <;> simp [List.length_set]

lemma setPointCoordinate_shape (s : Sequence) (pos c : ℕ) (v : ℚ) :
    (s.setPointCoordinate pos c v).1.seq.length = s.seq.length ∧
      (s.setPointCoordinate pos c v).1.curPoint = s.curPoint := by
  simp only [Sequence.setPointCoordinate]
  split_ifs <;> simp [List.length_set]

lemma setDuration_shape (s : Sequence) (pos : ℕ) (d : ℤ) :
    (s.setDuration pos d).1.seq.length = s.seq.length ∧
      (s.setDuration pos d).1.curPoint = s.curPoint := by
  simp only [Sequence.setDuration]
  split_ifs <;> simp [List.length_set]

lemma setTimeToTarget_shape (s : Sequence) (pos : ℕ) (t : ℤ) :
    (s.setTimeToTarget pos t).1.seq.length = s.seq.length ∧
      (s.setTimeToTarget pos t).1.curPoint = s.curPoint := by
  simp only [Sequence.setTimeToTarget]
  split_ifs <;> simp [List.length_set]

/-- The cursor invariant is preserved by every single mutator call. -/
lemma applyMutator_curOK (m : Mutator) (s : Sequence) (h : curOK s) :
    curOK (applyMutator m s).1 := by
  cases m with
  | setCurPoint p =>
    simp only [applyMutator, Sequence.setCurPoint]
    by_cases he : s.seq.isEmpty
    · rw [if_pos he]
      exact h
    · rw [if_neg he]
      have hlen : 0 < s.seq.length := by
        cases hs : s.seq with
        | nil => rw [hs] at he; simp at he
        | cons a l => simp [hs]
      split_ifs with h1 h2 h3 h4 h5 <;>
        first
          | exact h
          | (apply curOK_of
             apply Or.inr
             constructor <;> simp <;> omega)
  | insertAfterCurrent =>
    by_cases hv : s.isValid
    · simp only [applyMutator, Sequence.insertAfterCurrent, if_neg (not_not_intro hv)]
      by_cases hc : s.curPoint = -1
      · apply curOK_of
        apply Or.inr
        constructor
        · simp only [sequenceModified_curPoint]
          omega
        · simp only [sequenceModified_curPoint, sequenceModified_seq, if_pos hc,
            List.length_append, List.length_singleton]
          omega
      · rcases curOK_elim s h with ⟨h1, h2⟩ | ⟨h1, h2⟩
        · exact absurd h2 hc
        · apply curOK_of
          apply Or.inr
          have htn : (s.curPoint + 1).toNat ≤ s.seq.length := by omega
          constructor
          · simp only [sequenceModified_curPoint]
            omega
          · simp only [sequenceModified_curPoint, sequenceModified_seq, if_neg hc,
              List.length_insertIdx _ _ htn]
            omega
    · simp only [applyMutator, Sequence.insertAfterCurrent, if_pos hv]
      exact h
  | insertBeforeCurrent =>
    by_cases hv : s.isValid
    · by_cases hc : s.curPoint = -1
      · simp only [applyMutator, Sequence.insertBeforeCurrent, if_neg (not_not_intro hv),
          if_pos hc]
        apply curOK_of
        apply Or.inr
        simp only [sequenceModified_curPoint, sequenceModified_seq, List.length_append,
          List.length_singleton]
        omega
      · rcases curOK_elim s h with ⟨h1, h2⟩ | ⟨h1, h2⟩
        · exact absurd h2 hc
        · simp only [applyMutator, Sequence.insertBeforeCurrent, if_neg (not_not_intro hv),
            if_neg hc]
          apply curOK_of
          apply Or.inr
          have htn : s.curPoint.toNat ≤ s.seq.length := by omega
          simp only [sequenceModified_curPoint, sequenceModified_seq,
            List.length_insertIdx _ _ htn]
          omega
    · simp only [applyMutator, Sequence.insertBeforeCurrent, if_pos hv]
      exact h
  | append =>
    by_cases hv : s.isValid
    · simp only [applyMutator, Sequence.append, if_neg (not_not_intro hv)]
      apply curOK_of
      apply Or.inr
      simp only [sequenceModified_curPoint, sequenceModified_seq, List.length_append,
        List.length_singleton]
      omega
    · simp only [applyMutator, Sequence.append, if_pos hv]
      exact h
  | removeCurrent =>
    by_cases hg : ¬ s.isValid ∨ s.curPoint = -1
    · simp only [applyMutator, Sequence.removeCurrent, if_pos hg]
      exact h
    · push_neg at hg
      rcases curOK_elim s h with ⟨h1, h2⟩ | ⟨h1, h2⟩
      · exact absurd h2 hg.2
      · simp only [applyMutator, Sequence.removeCurrent,
          if_neg (by push_neg; exact hg : ¬ (¬ s.isValid ∨ s.curPoint = -1))]
        have herase : (s.seq.eraseIdx s.curPoint.toNat).length = s.seq.length - 1 := by
          rw [List.length_eraseIdx]
          split_ifs with hlt
          · rfl
          · omega
        split_ifs with hle
        · apply curOK_of
          rw [herase] at hle ⊢
          simp only [sequenceModified_curPoint, sequenceModified_seq, herase]
          omega
        · apply curOK_of
          apply Or.inr
          rw [herase] at hle
          simp only [sequenceModified_curPoint, sequenceModified_seq, herase]
          omega
  | clear =>
    by_cases hv : s.isValid
    · by_cases he : s.seq.isEmpty
      · simp only [applyMutator, Sequence.clear, if_neg (not_not_intro hv), if_pos he]
        apply curOK_congr s _ (by simp) (by simp) h
      · simp only [applyMutator, Sequence.clear, if_neg (not_not_intro hv), if_neg he]
        apply curOK_of
        apply Or.inl
        simp
    · simp only [applyMutator, Sequence.clear, if_pos hv]
      exact h
  | setPoint pos p =>
    exact curOK_congr s _ (setPoint_shape s pos p).1 (setPoint_shape s pos p).2 h
  | setPointCoordinate pos c v =>
    exact curOK_congr s _ (setPointCoordinate_shape s pos c v).1
      (setPointCoordinate_shape s pos c v).2 h
  | setDuration pos d =>
    exact curOK_congr s _ (setDuration_shape s pos d).1 (setDuration_shape s pos d).2 h
  | setTimeToTarget pos t =>
    exact curOK_congr s _ (setTimeToTarget_shape s pos t).1 (setTimeToTarget_shape s pos t).2 h
  | setPointCur p =>
    simp only [applyMutator, Sequence.setPointCur]
    split_ifs
    · exact h
    · exact curOK_congr s _ (setPoint_shape s _ p).1 (setPoint_shape s _ p).2 h
  | setPointCoordinateCur c v =>
    simp only [applyMutator, Sequence.setPointCoordinateCur]
    split_ifs
    · exact h
    · exact curOK_congr s _ (setPointCoordinate_shape s _ c v).1
        (setPointCoordinate_shape s _ c v).2 h
  | setDurationCur d =>
    simp only [applyMutator, Sequence.setDurationCur]
    split_ifs
    · exact h
    · exact curOK_congr s _ (setDuration_shape s _ d).1 (setDuration_shape s _ d).2 h
  | setTimeToTargetCur t =>
    simp only [applyMutator, Sequence.setTimeToTargetCur]
    split_ifs
    · exact h
    · exact curOK_congr s _ (setTimeToTarget_shape s _ t).1 (setTimeToTarget_shape s _ t).2 h

lemma asNumList_map_num (xs : List ℚ) : asNumList (Json.arr (xs.map Json.num)) = some xs := by
  induction xs with
  | nil => rfl
  | cons x xs ih =>
    have ih' : List.mapM (fun j => match j with | Json.num q => some q | _ => none)
        (xs.map Json.num) = some xs := ih
    show List.mapM (fun j => match j with | Json.num q => some q | _ => none)
        ((x :: xs).map Json.num) = some (x :: xs)
    rw [List.map_cons, List.mapM_cons, ih']
    rfl

lemma elemParse_toJson (p : SequencePoint) : elemParse (SequencePoint.toJson p) = some p := by
  show SequencePoint.fromJson _ = some p
  unfold SequencePoint.fromJson
  have h1 : lookupKey [(JKey.point, Json.arr (p.point.map Json.num)),
      (JKey.duration, Json.num p.duration),
      (JKey.timeToTarget, Json.num p.timeToTarget)] JKey.point =
    some (Json.arr (p.point.map Json.num)) := rfl
  have h2 : lookupKey [(JKey.point, Json.arr (p.point.map Json.num)),
      (JKey.duration, Json.num p.duration),
      (JKey.timeToTarget, Json.num p.timeToTarget)] JKey.duration =
    some (Json.num p.duration) := rfl
  have h3 : lookupKey [(JKey.point, Json.arr (p.point.map Json.num)),
      (JKey.duration, Json.num p.duration),
      (JKey.timeToTarget, Json.num p.timeToTarget)] JKey.timeToTarget =
    some (Json.num p.timeToTarget) := rfl
  rw [h1, h2, h3]
  simp [asNumList_map_num, asInt, Rat.den_intCast, Rat.num_intCast]

lemma mapM_elemParse_toJson (l : List SequencePoint) :
    (l.map SequencePoint.toJson).mapM elemParse = some l := by
  induction l with
  | nil => rfl
  | cons x xs ih =>
    rw [List.map_cons, List.mapM_cons, elemParse_toJson, ih]
    rfl

lemma loadElems_ge_two (elems : List Json) (minP maxP : SequencePoint)
    (acc : List SequencePoint) (dim : ℤ) (hdim : 0 ≤ dim) (index : ℤ) (hidx : 2 ≤ index) :
    loadElems elems minP maxP acc dim index =
      (elems.mapM elemParse).bind fun ps =>
        if ps.all fun p => (p.point.length : ℤ) == dim then
          some (minP, maxP, acc ++ ps, dim, index + elems.length)
        else none := by
  induction elems generalizing acc index with
  | nil =>
    rw [List.mapM_nil]
    simp [loadElems]
  | cons e rest ih =>
    cases hp : elemParse e with
    | none =>
      rw [List.mapM_cons]
      simp [loadElems, hp]
    | some sp =>
      rw [List.mapM_cons]
      simp only [loadElems, hp]
      rw [if_neg (by omega : ¬ index = 0), if_neg (by omega : ¬ index = 1),
        if_neg (by omega : ¬ (index = 0 ∨ index = 1))]
      by_cases hd : dim = (sp.point.length : ℤ)
      · rw [if_neg (by simp [hd] : ¬ (dim ≠ -1 ∧ dim ≠ (sp.point.length : ℤ))), ← hd,
          ih (acc ++ [sp]) (index + 1) (by omega)]
        cases hr : rest.mapM elemParse with
        | none => simp [hr]
        | some ps =>
          simp only [hr, Option.pure_def, Option.bind_eq_bind, Option.some_bind,
            Option.bind_some]
          simp only [List.all_cons, ← hd, beq_self_eq_true, Bool.true_and]
          split_ifs with hall
          · simp only [Option.some.injEq, Prod.mk.injEq, List.append_assoc,
              List.singleton_append, List.length_cons]
            push_cast
            simp only [true_and, and_true, eq_self_iff_true]
            omega
          · rfl
      · rw [if_pos ⟨by omega, hd⟩]
        cases hr : rest.mapM elemParse with
        | none => simp [hr]
        | some ps =>
          simp only [hr, Option.pure_def, Option.bind_eq_bind, Option.some_bind,
            Option.bind_some]
          rw [if_neg]
          simp only [List.all_cons, Bool.and_eq_true, beq_iff_eq]
          intro hcon
          exact hd hcon.1.symm

lemma load_singleton (e : Json) :
    Sequence.load (Json.arr [e]) =
      (elemParse e).map fun p0 => mkSequence p0.point.length p0 default := by
  cases hp : elemParse e with
  | none => simp [Sequence.load, loadElems, hp]
  | some p0 =>
    have h1 : ¬ ((-1 : ℤ) ≠ -1 ∧ (-1 : ℤ) ≠ (p0.point.length : ℤ)) := by simp
    simp only [Sequence.load, loadElems, hp, if_neg h1]
    norm_num
    rfl

lemma load_cons_cons (e0 e1 : Json) (rest : List Json) :
    Sequence.load (Json.arr (e0 :: e1 :: rest)) =
      (elemParse e0).bind fun p0 => (elemParse e1).bind fun p1 =>
        if p0.point.length = p1.point.length then
          (rest.mapM elemParse).bind fun ps =>
            if ps.all fun p => (p.point.length : ℤ) == (p1.point.length : ℤ) then
              some
                { mkSequence p1.point.length p0 p1 with
                    seq := ps.map fun p =>
                      (mkSequence p1.point.length p0 p1).validatePoint p false
                    curPoint := if ps.isEmpty then -1 else 0 }
            else none
        else none := by
  cases hp0 : elemParse e0 with
  | none => simp [Sequence.load, loadElems, hp0]
  | some p0 =>
    cases hp1 : elemParse e1 with
    | none =>
      have h1 : ¬ ((-1 : ℤ) ≠ -1 ∧ (-1 : ℤ) ≠ (p0.point.length : ℤ)) := by simp
      simp [Sequence.load, loadElems, hp0, hp1, if_neg h1]
    | some p1 =>
      have h1 : ¬ ((-1 : ℤ) ≠ -1 ∧ (-1 : ℤ) ≠ (p0.point.length : ℤ)) := by simp
      have hLE := loadElems_ge_two rest p0 p1 [] (p1.point.length : ℤ) (by positivity) 2
        (by omega)
      by_cases heq : p0.point.length = p1.point.length
      · have h2 : ¬ ((p0.point.length : ℤ) ≠ -1 ∧
            (p0.point.length : ℤ) ≠ (p1.point.length : ℤ)) := by
          simp [heq]
        cases hr : rest.mapM elemParse with
        | none =>
          rw [hr] at hLE
          simp only [Option.bind] at hLE
          simp only [Sequence.load, loadElems, hp0, hp1, if_neg h1, if_neg h2, hr,
            Option.bind, if_pos heq]
          norm_num [hLE]
        | some ps =>
          rw [hr] at hLE
          simp only [Option.bind, List.nil_append] at hLE
          by_cases hall : (ps.all fun p => (p.point.length : ℤ) == (p1.point.length : ℤ)) = true
          · rw [if_pos hall] at hLE
            have hidx : ¬ ((2 : ℤ) + (rest.length : ℤ) < 1) := by omega
            simp only [Sequence.load, loadElems, hp0, hp1, if_neg h1, if_neg h2, hr,
              Option.bind, if_pos heq, if_pos hall]
            norm_num [hLE, hidx, Int.toNat_natCast]
          · rw [if_neg hall] at hLE
            simp only [Sequence.load, loadElems, hp0, hp1, if_neg h1, if_neg h2, hr,
              Option.bind, if_pos heq, if_neg hall]
            norm_num [hLE]
      · have hA : ((p0.point.length : ℤ) ≠ -1 ∧
            (p0.point.length : ℤ) ≠ (p1.point.length : ℤ)) :=
          ⟨by omega, by exact_mod_cast heq⟩
        simp only [Sequence.load, loadElems, hp0, hp1, if_neg h1, if_pos hA, Option.bind]
        rw [if_neg heq]

lemma optionMapM_none_iff {α β} (f : α → Option β) (l : List α) :
    l.mapM f = none ↔ ∃ e ∈ l, f e = none := by
  induction l with
  | nil =>
    rw [List.mapM_nil]
    simp
  | cons x xs ih =>
    rw [List.mapM_cons]
    cases hx : f x with
    | none => simp [hx]
    | some b =>
      cases hxs : xs.mapM f with
      | none =>
        have hex := ih.1 hxs
        simp only [hx, hxs, Option.pure_def, Option.bind_eq_bind, Option.some_bind,
          Option.none_bind]
        constructor
        · intro _
          obtain ⟨e, he, hfe⟩ := hex
          exact ⟨e, List.mem_cons.2 (Or.inr he), hfe⟩
        · intro _
          trivial
      | some bs =>
        simp only [hx, hxs, Option.pure_def, Option.bind_eq_bind, Option.some_bind]
        constructor
        · intro hcon
          exact absurd hcon (by simp)
        · rintro ⟨e, he, hfe⟩
          rcases List.mem_cons.1 he with he1 | he1
          · rw [he1] at hfe
            rw [hfe] at hx
            cases hx
          · have : xs.mapM f = none := ih.2 ⟨e, he1, hfe⟩
            rw [this] at hxs
            cases hxs

lemma optionMapM_mem_of_some {α β} (f : α → Option β) (l : List α) (ps : List β)
    (h : l.mapM f = some ps) : ∀ p ∈ ps, ∃ e ∈ l, f e = some p := by
  induction l generalizing ps with
  | nil =>
    rw [List.mapM_nil] at h
    cases h
    simp
  | cons x xs ih =>
    rw [List.mapM_cons] at h
    cases hx : f x with
    | none => rw [hx] at h; cases h
    | some b =>
      rw [hx] at h
      cases hxs : xs.mapM f with
      | none => rw [hxs] at h; cases h
      | some bs =>
        rw [hxs] at h
        simp only [Option.pure_def, Option.bind_eq_bind, Option.some_bind,
          Option.some.injEq] at h
        intro p hp
        rw [← h] at hp
        rcases List.mem_cons.1 hp with h1 | h1
        · exact ⟨x, List.mem_cons.2 (Or.inl rfl), h1 ▸ hx⟩
        · obtain ⟨e, he, hfe⟩ := ih bs hxs p h1
          exact ⟨e, List.mem_cons.2 (Or.inr he), hfe⟩

lemma optionMapM_some_of_mem {α β} (f : α → Option β) (l : List α) (ps : List β)
    (h : l.mapM f = some ps) (e : α) (he : e ∈ l) (p : β) (hfe : f e = some p) :
    p ∈ ps := by
  induction l generalizing ps with
  | nil => cases he
  | cons x xs ih =>
    rw [List.mapM_cons] at h
    cases hx : f x with
    | none => rw [hx] at h; cases h
    | some b =>
      rw [hx] at h
      cases hxs : xs.mapM f with
      | none => rw [hxs] at h; cases h
      | some bs =>
        rw [hxs] at h
        simp only [Option.pure_def, Option.bind_eq_bind, Option.some_bind,
          Option.some.injEq] at h
        rcases List.mem_cons.1 he with h1 | h1
        · rw [h1] at hfe
          rw [hfe] at hx
          cases hx
          rw [← h]
          exact List.mem_cons.2 (Or.inl rfl)
        · rw [← h]
          exact List.mem_cons.2 (Or.inr (ih bs hxs h1))

lemma elemParse_eq_none_of_not_object (e : Json) (h : e.isObject = false) :
    elemParse e = none := by
  cases e <;> simp [Json.isObject] at h ⊢ <;> rfl

lemma load_none_iff (j : Json) : Sequence.load j = none ↔ loadFailSpec j := by
  cases j with
  | null => simp [Sequence.load, loadFailSpec]
  | bool b => simp [Sequence.load, loadFailSpec]
  | num q => simp [Sequence.load, loadFailSpec]
  | obj fields => simp [Sequence.load, loadFailSpec]
  | arr elems =>
    match elems with
    | [] => simp [Sequence.load, loadElems, loadFailSpec]
    | [e] =>
      rw [load_singleton]
      show _ ↔ loadFailSpec (Json.arr [e])
      constructor
      · intro h
        right; right; left
        exact ⟨e, by simp, Option.map_eq_none'.1 h⟩
      · intro h
        rcases h with h | h | h | h
        · simp at h
        · obtain ⟨e', he', hobj⟩ := h
          rw [List.mem_singleton.1 he'] at hobj
          rw [elemParse_eq_none_of_not_object e hobj]
          rfl
        · obtain ⟨e', he', hn⟩ := h
          rw [List.mem_singleton.1 he'] at hn
          rw [hn]
          rfl
        · obtain ⟨e0, p0, hhead, hp0, e', he', p, hp, hne⟩ := h
          have he0 : e = e0 := by simpa using hhead
          rw [List.mem_singleton.1 he'] at hp
          rw [← he0] at hp0
          rw [hp0] at hp
          cases hp
          exact absurd rfl hne
    | e0 :: e1 :: rest =>
      rw [load_cons_cons]
      show _ ↔ loadFailSpec (Json.arr (e0 :: e1 :: rest))
      constructor
      · intro h
        cases hp0 : elemParse e0 with
        | none =>
          right; right; left
          exact ⟨e0, by simp, hp0⟩
        | some p0 =>
          rw [hp0] at h
          simp only [Option.bind_eq_bind, Option.some_bind] at h
          cases hp1 : elemParse e1 with
          | none =>
            right; right; left
            exact ⟨e1, by simp, hp1⟩
          | some p1 =>
            rw [hp1] at h
            simp only [Option.some_bind] at h
            by_cases heq : p0.point.length = p1.point.length
            · rw [if_pos heq] at h
              cases hr : rest.mapM elemParse with
              | none =>
                obtain ⟨e, he, hen⟩ := (optionMapM_none_iff elemParse rest).1 hr
                right; right; left
                exact ⟨e, by simp [he], hen⟩
              | some ps =>
                rw [hr] at h
                simp only [Option.some_bind] at h
                by_cases hall :
                    (ps.all fun p => (p.point.length : ℤ) == (p1.point.length : ℤ)) = true
                · rw [if_pos hall] at h
                  cases h
                · rw [List.all_eq_true] at hall
                  push_neg at hall
                  obtain ⟨p, hpmem, hplen⟩ := hall
                  obtain ⟨e, he, hep⟩ := optionMapM_mem_of_some elemParse rest ps hr p hpmem
                  right; right; right
                  refine ⟨e0, p0, rfl, hp0, e, by simp [he], p, hep, ?_⟩
                  intro hc
                  apply hplen
                  have hlen : p.point.length = p1.point.length := by omega
                  simp [hlen]
            · right; right; right
              exact ⟨e0, p0, rfl, hp0, e1, by simp, p1, hp1, fun hc => heq hc.symm⟩
      · intro h
        cases hp0 : elemParse e0 with
        | none => simp [hp0]
        | some p0 =>
          cases hp1 : elemParse e1 with
          | none => simp [hp0, hp1]
          | some p1 =>
            by_cases heq : p0.point.length = p1.point.length
            · cases hr : rest.mapM elemParse with
              | none => simp [hp0, hp1, heq, hr]
              | some ps =>
                by_cases hall :
                    (ps.all fun p => (p.point.length : ℤ) == (p1.point.length : ℤ)) = true
                · exfalso
                  rcases h with h | h | h | h
                  · simp at h
                  · obtain ⟨e, he, hobj⟩ := h
                    have hn := elemParse_eq_none_of_not_object e hobj
                    rcases List.mem_cons.1 he with h1 | h1
                    · rw [h1] at hn
                      rw [hn] at hp0
                      cases hp0
                    · rcases List.mem_cons.1 h1 with h2 | h2
                      · rw [h2] at hn
                        rw [hn] at hp1
                        cases hp1
                      · have : rest.mapM elemParse = none :=
                          (optionMapM_none_iff elemParse rest).2 ⟨e, h2, hn⟩
                        rw [this] at hr
                        cases hr
                  · obtain ⟨e, he, hn⟩ := h
                    rcases List.mem_cons.1 he with h1 | h1
                    · rw [h1] at hn
                      rw [hn] at hp0
                      cases hp0
                    · rcases List.mem_cons.1 h1 with h2 | h2
                      · rw [h2] at hn
                        rw [hn] at hp1
                        cases hp1
                      · have : rest.mapM elemParse = none :=
                          (optionMapM_none_iff elemParse rest).2 ⟨e, h2, hn⟩
                        rw [this] at hr
                        cases hr
                  · obtain ⟨e0', p0', hhead, hp0', e, he, p, hp, hne⟩ := h
                    have he0 : e0 = e0' := by simpa using hhead
                    rw [← he0] at hp0'
                    rw [hp0'] at hp0
                    cases hp0
                    rcases List.mem_cons.1 he with h1 | h1
                    · rw [h1] at hp
                      rw [hp0'] at hp
                      cases hp
                      exact hne rfl
                    · rcases List.mem_cons.1 h1 with h2 | h2
                      · rw [h2] at hp
                        rw [hp1] at hp
                        cases hp
                        exact hne heq.symm
                      · have hmem := optionMapM_some_of_mem elemParse rest ps hr e h2 p hp
                        rw [List.all_eq_true] at hall
                        have := hall p hmem
                        simp only [beq_iff_eq, Nat.cast_inj] at this
                        omega
                · simp only [hp0, hp1, heq, hr, hall, Option.bind_eq_bind,
                    Option.some_bind, if_true, if_neg hall]
                  simp
            · simp [hp0, hp1, heq]

lemma mkSequence_min_eq (dim : ℕ) (minV maxV : SequencePoint)
    (h : minV.point.length = dim) : (mkSequence dim minV maxV).min = minV := by
  show { minV with point := resizeToDim dim minV.point } = minV
  rw [resizeToDim_eq_self _ _ h]

lemma mkSequence_max_eq (dim : ℕ) (minV maxV : SequencePoint)
    (h : maxV.point.length = dim) : (mkSequence dim minV maxV).max = maxV := by
  show { maxV with point := resizeToDim dim maxV.point } = maxV
  rw [resizeToDim_eq_self _ _ h]

lemma resizeToDim_nil (d : ℕ) (hd : 0 < d) : resizeToDim d [] = List.replicate d 0 := by
  simp [resizeToDim, hd]

/-- Any successfully loaded Sequence satisfies the cursor invariant. -/
lemma load_curOK (j : Json) (s : Sequence) (h : Sequence.load j = some s) : curOK s := by
  cases j with
  | null => cases h
  | bool b => cases h
  | num q => cases h
  | obj fields => cases h
  | arr elems =>
    match elems, h with
    | [], h =>
      simp [Sequence.load, loadElems] at h
    | [e], h =>
      rw [load_singleton] at h
      cases hp : elemParse e with
      | none => rw [hp] at h; cases h
      | some p0 =>
        rw [hp] at h
        simp only [Option.map_some', Option.some.injEq] at h
        rw [← h]
        exact ⟨fun _ => rfl, fun hne => absurd rfl hne⟩
    | e0 :: e1 :: rest, h =>
      rw [load_cons_cons] at h
      cases hp0 : elemParse e0 with
      | none => rw [hp0] at h; cases h
      | some p0 =>
        rw [hp0] at h
        simp only [Option.bind_eq_bind, Option.some_bind] at h
        cases hp1 : elemParse e1 with
        | none => rw [hp1] at h; cases h
        | some p1 =>
          rw [hp1] at h
          simp only [Option.some_bind] at h
          by_cases heq : p0.point.length = p1.point.length
          · rw [if_pos heq] at h
            cases hr : rest.mapM elemParse with
            | none => rw [hr] at h; cases h
            | some ps =>
              rw [hr] at h
              simp only [Option.some_bind] at h
              by_cases hall :
                  (ps.all fun p => (p.point.length : ℤ) == (p1.point.length : ℤ)) = true
              · rw [if_pos hall] at h
                simp only [Option.some.injEq] at h
                rw [← h]
                by_cases hps : ps.isEmpty
                · have hps' : ps = [] := List.isEmpty_iff.1 hps
                  constructor
                  · intro _
                    simp [hps]
                  · intro hne
                    exfalso
                    apply hne
                    simp [hps']
                · have hlen : 0 < ps.length := by
                    cases hx : ps with
                    | nil => rw [hx] at hps; simp at hps
                    | cons a l => simp
                  constructor
                  · intro hemp
                    exfalso
                    have hnil : ps = [] := by simpa using hemp
                    rw [hnil] at hlen
                    simp at hlen
                  · intro _
                    have hnil : ps ≠ [] := by
                      intro hh
                      rw [hh] at hlen
                      simp at hlen
                    constructor
                    · simp [hnil]
                    · simp only [List.length_map]
                      simp [hnil]
                      omega
              · rw [if_neg hall] at h
                cases h
          · rw [if_neg heq] at h
            cases h

/-- C4: the file-based save returns false on an invalid Sequence; on a
valid one it fails (returning false and leaving the modified flag exactly
as it was) when opening or writing fails, and it returns true and clears
the modified flag exactly when the write completes without error. -/
theorem claim4_saveFile_result (s : Sequence) (openOk writeOk : Bool) :
    s.saveFile openOk writeOk =
      if s.isValid then
        (if openOk ∧ writeOk then (true, { s with isModified := false }) else (false, s))
      else (false, s) := by
  unfold Sequence.saveFile Sequence.saveJson
  by_cases hv : s.isValid
  · simp only [if_pos hv, if_neg (not_not_intro hv)]
    cases openOk <;> cases writeOk <;> simp
  · simp [hv]

/-- C1: on a valid Sequence with sane bounds whose stored points are all in
range, any single mutator call leaves every stored point with exactly
pointDim coordinates and all fields inside the inclusive [min, max]
ranges. -/
theorem claim1_bounds_invariant (s : Sequence) (m : Mutator) (hv : s.isValid)
    (hb : boundsOK s) (hinv : ∀ p ∈ s.seq, inRange s p) :
    ∀ p ∈ (applyMutator m s).1.seq, inRange (applyMutator m s).1 p := by
  intro q hq
  rw [inRange_congr _ s q (applyMutator_pointDim m s) (applyMutator_min m s)
    (applyMutator_max m s)]
  exact applyMutator_mem_inRange m s hb hinv q hq

/-- Witness for C1: on a concrete valid one-point Sequence, setPoint with
an out-of-range argument stores the clamped point, which is in range. -/
theorem claim1_bounds_invariant_witness :
    inRange
      (applyMutator (Mutator.setPoint 0 ⟨[20], 50, -7⟩)
        ⟨1, ⟨[0], 0, 0⟩, ⟨[10], 10, 10⟩, [⟨[3], 4, 5⟩], 0, false⟩).1
      ⟨[10], 10, 0⟩ :=
  claim1_bounds_invariant ⟨1, ⟨[0], 0, 0⟩, ⟨[10], 10, 10⟩, [⟨[3], 4, 5⟩], 0, false⟩
    (Mutator.setPoint 0 ⟨[20], 50, -7⟩) (by decide) (by decide) (by decide)
    ⟨[10], 10, 0⟩ (by decide)

/-- C6: in every state reachable from a constructor call or a successful
load through mutator calls, the cursor is -1 exactly when the list is
empty, and otherwise a valid index into the list. -/
theorem claim6_cursor_invariant (s : Sequence) (h : Reachable s) : curOK s := by
  induction h with
  | construct dim minV maxV => exact ⟨fun _ => rfl, fun hne => absurd rfl hne⟩
  | loaded j t hjt => exact load_curOK j t hjt
  | step t m _ ih => exact applyMutator_curOK m t ih

/-- Witness for C6 at a freshly constructed Sequence. -/
theorem claim6_cursor_invariant_witness :
    curOK (mkSequence 3 ⟨[0, 0, 0], 0, 0⟩ ⟨[10, 10, 10], 100, 100⟩) :=
  claim6_cursor_invariant _ (Reachable.construct 3 ⟨[0, 0, 0], 0, 0⟩ ⟨[10, 10, 10], 100, 100⟩)

/-- C9: on a valid Sequence (satisfying the cursor invariant), clear()
leaves the list empty with cursor -1 and the modified flag true — also
when the Sequence was already empty — and emits numPointsChanged then
curPointChanged when the list was non-empty. -/
theorem claim9_clear (s : Sequence) (hv : s.isValid) (hc : curOK s) :
    (s.clear).1.seq = [] ∧ (s.clear).1.curPoint = -1 ∧ (s.clear).1.isModified = true ∧
      (s.seq ≠ [] →
        (s.clear).2 = [Signal.numPointsChanged, Signal.curPointChanged] ++
          (if s.isModified then [] else [Signal.isModifiedChanged])) := by
  unfold Sequence.clear
  by_cases he : s.seq.isEmpty
  · have hnil : s.seq = [] := List.isEmpty_iff.1 he
    simp only [if_neg (not_not_intro hv), if_pos he]
    refine ⟨?_, ?_, ?_, ?_⟩
    · simp [hnil]
    · simp [hc.1 hnil]
    · simp
    · intro hne
      exact absurd hnil hne
  · simp only [if_neg (not_not_intro hv), if_neg he]
    refine ⟨by simp, by simp, by simp, ?_⟩
    intro _
    unfold Sequence.sequenceModified
    by_cases hm : s.isModified
    · simp [hm]
    · simp [hm]

/-- Witness for C9 at a concrete valid one-point Sequence. -/
theorem claim9_clear_witness :
    (Sequence.clear ⟨1, ⟨[0], 0, 0⟩, ⟨[10], 10, 10⟩, [⟨[3], 4, 5⟩], 0, false⟩).1.seq = [] ∧
    (Sequence.clear ⟨1, ⟨[0], 0, 0⟩, ⟨[10], 10, 10⟩, [⟨[3], 4, 5⟩], 0, false⟩).1.curPoint = -1 ∧
    (Sequence.clear ⟨1, ⟨[0], 0, 0⟩, ⟨[10], 10, 10⟩, [⟨[3], 4, 5⟩], 0, false⟩).1.isModified =
      true ∧
    ((⟨1, ⟨[0], 0, 0⟩, ⟨[10], 10, 10⟩, [⟨[3], 4, 5⟩], 0, false⟩ : Sequence).seq ≠ [] →
      (Sequence.clear ⟨1, ⟨[0], 0, 0⟩, ⟨[10], 10, 10⟩, [⟨[3], 4, 5⟩], 0, false⟩).2 =
        [Signal.numPointsChanged, Signal.curPointChanged] ++
          (if (⟨1, ⟨[0], 0, 0⟩, ⟨[10], 10, 10⟩, [⟨[3], 4, 5⟩], 0, false⟩ : Sequence).isModified
            then [] else [Signal.isModifiedChanged])) :=
  claim9_clear ⟨1, ⟨[0], 0, 0⟩, ⟨[10], 10, 10⟩, [⟨[3], 4, 5⟩], 0, false⟩ (by decide) (by decide)

/-- Counterexample to C7: on an empty valid Sequence, insertBeforeCurrent()
emits curPointChanged FIRST and numPointsChanged only second, so the
length-changed signal is not emitted before the cursor signal as the claim
states. -/
theorem claim7_counterexample :
    (Sequence.insertBeforeCurrent
        ⟨3, ⟨[0, 0, 0], 0, 0⟩, ⟨[10, 10, 10], 100, 100⟩, [], -1, false⟩).2 =
      [Signal.curPointChanged, Signal.numPointsChanged, Signal.curPointValuesChanged,
        Signal.isModifiedChanged] ∧
    (Sequence.insertBeforeCurrent
        ⟨3, ⟨[0, 0, 0], 0, 0⟩, ⟨[10, 10, 10], 100, 100⟩, [], -1, false⟩).2.head? ≠
      some Signal.numPointsChanged := by
  constructor
  · norm_num [Sequence.insertBeforeCurrent, Sequence.isValid, Sequence.sequenceModified]
  · norm_num [Sequence.insertBeforeCurrent, Sequence.isValid, Sequence.sequenceModified]
    decide

/-- C7 amended: on a valid Sequence, insertBeforeCurrent() with cursor -1
emits curPointChanged, then numPointsChanged, then curPointValuesChanged,
then the modified transition; with a cursor present it emits
numPointsChanged, then curPointValuesChanged, then the modified transition,
and the cursor index is unchanged. -/
theorem claim7_amended (s : Sequence) (hv : s.isValid) :
    (s.curPoint = -1 →
      (s.insertBeforeCurrent).2 =
        [Signal.curPointChanged, Signal.numPointsChanged, Signal.curPointValuesChanged] ++
          (if s.isModified then [] else [Signal.isModifiedChanged])) ∧
    (s.curPoint ≠ -1 →
      (s.insertBeforeCurrent).2 =
        [Signal.numPointsChanged, Signal.curPointValuesChanged] ++
          (if s.isModified then [] else [Signal.isModifiedChanged]) ∧
      (s.insertBeforeCurrent).1.curPoint = s.curPoint) := by
  unfold Sequence.insertBeforeCurrent Sequence.sequenceModified
  constructor
  · intro hc
    simp only [if_neg (not_not_intro hv), if_pos hc]
    by_cases hm : s.isModified <;> simp [hm]
  · intro hc
    simp only [if_neg (not_not_intro hv), if_neg hc]
    by_cases hm : s.isModified <;> simp [hm]

/-- Witness for the amended C7 at a concrete valid one-point Sequence with
a cursor present: the non-empty branch emits numPointsChanged then
curPointValuesChanged then the modified transition, keeping the cursor. -/
theorem claim7_amended_witness :
    (Sequence.insertBeforeCurrent
        ⟨1, ⟨[0], 0, 0⟩, ⟨[10], 10, 10⟩, [⟨[3], 4, 5⟩], 0, false⟩).2 =
      [Signal.numPointsChanged, Signal.curPointValuesChanged] ++
        (if (⟨1, ⟨[0], 0, 0⟩, ⟨[10], 10, 10⟩, [⟨[3], 4, 5⟩], 0, false⟩ :
          Sequence).isModified then [] else [Signal.isModifiedChanged]) ∧
    (Sequence.insertBeforeCurrent
        ⟨1, ⟨[0], 0, 0⟩, ⟨[10], 10, 10⟩, [⟨[3], 4, 5⟩], 0, false⟩).1.curPoint =
      (⟨1, ⟨[0], 0, 0⟩, ⟨[10], 10, 10⟩, [⟨[3], 4, 5⟩], 0, false⟩ : Sequence).curPoint :=
  (claim7_amended ⟨1, ⟨[0], 0, 0⟩, ⟨[10], 10, 10⟩, [⟨[3], 4, 5⟩], 0, false⟩
    (by decide)).2 (by decide)

/-- Counterexample to C5: on the spec's own scenario (bounds 0..10 with
durations 0..100 and timeToTarget 0..100), the single point stored by
insertAfterCurrent() is {(5,5,5); 50; 0}, not {(5,5,5); 50; 50}: the
timeToTarget is not the average of the bounds. -/
theorem claim5_counterexample :
    (Sequence.insertAfterCurrent
        ⟨3, ⟨[0, 0, 0], 0, 0⟩, ⟨[10, 10, 10], 100, 100⟩, [], -1, false⟩).1.seq ≠
      [⟨[5, 5, 5], 50, 50⟩] := by
  have hseq : (Sequence.insertAfterCurrent
      ⟨3, ⟨[0, 0, 0], 0, 0⟩, ⟨[10, 10, 10], 100, 100⟩, [], -1, false⟩).1.seq =
      [⟨[5, 5, 5], 50, 0⟩] := by
    norm_num [Sequence.insertAfterCurrent, Sequence.isValid, Sequence.validatePoint,
      defaultSequencePoint, Sequence.sequenceModified, resizeToDim, clampQ, clampZ,
      List.range_succ]
    decide
  rw [hseq]
  simp

/-- C5 amended: on a valid Sequence with cursor -1 and sane bounds, the
point inserted by insertAfterCurrent() has for each coordinate the average
of the min and max coordinates and for duration the truncating average of
the min and max durations, but its timeToTarget is the default-constructed
value 0 clamped into [min.timeToTarget, max.timeToTarget], not the average;
the cursor moves to the new element. -/
theorem claim5_amended (s : Sequence) (hv : s.isValid) (hc : s.curPoint = -1)
    (hb : boundsOK s) :
    ∃ q, (s.insertAfterCurrent).1.seq = s.seq ++ [q] ∧
      (s.insertAfterCurrent).1.curPoint = s.curPoint + 1 ∧
      (∀ i < s.pointDim,
        q.point.getD i 0 = (s.max.point.getD i 0 + s.min.point.getD i 0) / 2) ∧
      q.duration = Int.tdiv (s.max.duration + s.min.duration) 2 ∧
      q.timeToTarget = clampZ s.min.timeToTarget s.max.timeToTarget 0 := by
  refine ⟨s.validatePoint (defaultSequencePoint s) false, ?_, ?_, ?_, ?_, ?_⟩
  · unfold Sequence.insertAfterCurrent
    simp only [if_neg (not_not_intro hv), if_pos hc, sequenceModified_seq]
  · unfold Sequence.insertAfterCurrent
    simp only [if_neg (not_not_intro hv), if_pos hc, sequenceModified_curPoint]
  · intro i hi
    rw [validatePoint_getD s _ i hi]
    have hlen : (defaultSequencePoint s).point.length = s.pointDim := by
      simp [defaultSequencePoint]
    rw [resizeToDim_eq_self _ _ hlen]
    have hget : (defaultSequencePoint s).point.getD i 0 =
        (s.max.point.getD i 0 + s.min.point.getD i 0) / 2 :=
      getD_range_map _ s.pointDim i 0 hi
    rw [hget]
    have hbi := hb.1 i hi
    apply clampQ_eq_self
    · linarith
    · linarith
  · rw [validatePoint_duration]
    show clampZ s.min.duration s.max.duration
      (Int.tdiv (s.max.duration + s.min.duration) 2) = _
    have hmem := tdiv_two_mem s.min.duration s.max.duration hb.2.1
    rw [add_comm s.max.duration s.min.duration]
    exact clampZ_eq_self _ _ _ hmem.1 hmem.2
  · rw [validatePoint_timeToTarget]
    rfl

/-- Witness for the amended C5 at the spec's concrete scenario. -/
theorem claim5_amended_witness :
    ∃ q, (Sequence.insertAfterCurrent
        ⟨3, ⟨[0, 0, 0], 0, 0⟩, ⟨[10, 10, 10], 100, 100⟩, [], -1, false⟩).1.seq =
        (⟨3, ⟨[0, 0, 0], 0, 0⟩, ⟨[10, 10, 10], 100, 100⟩, [], -1, false⟩ : Sequence).seq ++
          [q] ∧
      (Sequence.insertAfterCurrent
          ⟨3, ⟨[0, 0, 0], 0, 0⟩, ⟨[10, 10, 10], 100, 100⟩, [], -1, false⟩).1.curPoint =
        (⟨3, ⟨[0, 0, 0], 0, 0⟩, ⟨[10, 10, 10], 100, 100⟩, [], -1, false⟩ :
          Sequence).curPoint + 1 ∧
      (∀ i < (⟨3, ⟨[0, 0, 0], 0, 0⟩, ⟨[10, 10, 10], 100, 100⟩, [], -1, false⟩ :
          Sequence).pointDim,
        q.point.getD i 0 =
          ((⟨3, ⟨[0, 0, 0], 0, 0⟩, ⟨[10, 10, 10], 100, 100⟩, [], -1, false⟩ :
            Sequence).max.point.getD i 0 +
          (⟨3, ⟨[0, 0, 0], 0, 0⟩, ⟨[10, 10, 10], 100, 100⟩, [], -1, false⟩ :
            Sequence).min.point.getD i 0) / 2) ∧
      q.duration = Int.tdiv
        ((⟨3, ⟨[0, 0, 0], 0, 0⟩, ⟨[10, 10, 10], 100, 100⟩, [], -1, false⟩ :
          Sequence).max.duration +
        (⟨3, ⟨[0, 0, 0], 0, 0⟩, ⟨[10, 10, 10], 100, 100⟩, [], -1, false⟩ :
          Sequence).min.duration) 2 ∧
      q.timeToTarget = clampZ
        (⟨3, ⟨[0, 0, 0], 0, 0⟩, ⟨[10, 10, 10], 100, 100⟩, [], -1, false⟩ :
          Sequence).min.timeToTarget
        (⟨3, ⟨[0, 0, 0], 0, 0⟩, ⟨[10, 10, 10], 100, 100⟩, [], -1, false⟩ :
          Sequence).max.timeToTarget 0 :=
  claim5_amended ⟨3, ⟨[0, 0, 0], 0, 0⟩, ⟨[10, 10, 10], 100, 100⟩, [], -1, false⟩
    (by decide) (by decide) (by decide)

/-- Counterexample to C8: after removeCurrent() on a length-1 Sequence the
cursor is -1, and point() — which in the source is the unguarded
`return m_sequence[m_curPoint];` — performs an out-of-bounds access
(modelled as `none`) instead of returning a sentinel value. -/
theorem claim8_counterexample :
    (Sequence.removeCurrent
        ⟨1, ⟨[0], 0, 0⟩, ⟨[10], 10, 10⟩, [⟨[3], 4, 5⟩], 0, false⟩).1.pointAcc = none := by
  decide

/-- C8 amended: with no current point the scalar accessors
pointCoordinate(c), pointDuration() and pointTimeToTarget() return the 0
sentinels, but point() is an out-of-bounds access (none in the model); in
particular after removeCurrent() on a length-1 Sequence the list is empty,
the cursor is -1, the scalar accessors return the sentinels and point()
is out of bounds. -/
theorem claim8_amended (s : Sequence) :
    (s.curPoint = -1 →
      (∀ c, s.pointCoordinateCur c = 0) ∧ s.pointDurationCur = 0 ∧
        s.pointTimeToTargetCur = 0 ∧ s.pointAcc = none) ∧
    (s.isValid → s.seq.length = 1 → s.curPoint = 0 →
      (s.removeCurrent).1.seq = [] ∧ (s.removeCurrent).1.curPoint = -1 ∧
        (∀ c, (s.removeCurrent).1.pointCoordinateCur c = 0) ∧
        (s.removeCurrent).1.pointDurationCur = 0 ∧
        (s.removeCurrent).1.pointTimeToTargetCur = 0 ∧
        (s.removeCurrent).1.pointAcc = none) := by
  constructor
  · intro hc
    have hneg : s.curPoint < 0 := by omega
    refine ⟨fun c => ?_, ?_, ?_, ?_⟩
    · simp [Sequence.pointCoordinateCur, hneg]
    · simp [Sequence.pointDurationCur, hneg]
    · simp [Sequence.pointTimeToTargetCur, hneg]
    · simp only [Sequence.pointAcc]
      rw [if_neg]
      intro hcon
      omega
  · intro hv hlen hc
    have hguard : ¬ (¬ s.isValid ∨ s.curPoint = -1) := by
      push_neg
      exact ⟨hv, by omega⟩
    unfold Sequence.removeCurrent
    rw [if_neg hguard]
    have h0 : s.curPoint.toNat = 0 := by omega
    have hseq' : s.seq.eraseIdx s.curPoint.toNat = [] := by
      rw [← List.length_eq_zero, List.length_eraseIdx]
      simp [hlen, h0]
    rw [hseq']
    rw [if_pos (by simp [hc] : ((([] : List SequencePoint).length : ℤ) ≤ s.curPoint))]
    refine ⟨by simp, by simp, fun c => ?_, ?_, ?_, ?_⟩
    · simp [Sequence.pointCoordinateCur]
    · simp [Sequence.pointDurationCur]
    · simp [Sequence.pointTimeToTargetCur]
    · simp [Sequence.pointAcc]

/-- Witness for the amended C8 at the concrete length-1 Sequence:
removeCurrent empties the list, sets the cursor to -1, the scalar
accessors return sentinels and point() is out of bounds. -/
theorem claim8_amended_witness :
    (Sequence.removeCurrent
        ⟨1, ⟨[0], 0, 0⟩, ⟨[10], 10, 10⟩, [⟨[3], 4, 5⟩], 0, false⟩).1.seq = [] ∧
    (Sequence.removeCurrent
        ⟨1, ⟨[0], 0, 0⟩, ⟨[10], 10, 10⟩, [⟨[3], 4, 5⟩], 0, false⟩).1.curPoint = -1 ∧
    (∀ c, (Sequence.removeCurrent
        ⟨1, ⟨[0], 0, 0⟩, ⟨[10], 10, 10⟩, [⟨[3], 4, 5⟩], 0,
          false⟩).1.pointCoordinateCur c = 0) ∧
    (Sequence.removeCurrent
        ⟨1, ⟨[0], 0, 0⟩, ⟨[10], 10, 10⟩, [⟨[3], 4, 5⟩], 0,
          false⟩).1.pointDurationCur = 0 ∧
    (Sequence.removeCurrent
        ⟨1, ⟨[0], 0, 0⟩, ⟨[10], 10, 10⟩, [⟨[3], 4, 5⟩], 0,
          false⟩).1.pointTimeToTargetCur = 0 ∧
    (Sequence.removeCurrent
        ⟨1, ⟨[0], 0, 0⟩, ⟨[10], 10, 10⟩, [⟨[3], 4, 5⟩], 0, false⟩).1.pointAcc = none :=
  (claim8_amended ⟨1, ⟨[0], 0, 0⟩, ⟨[10], 10, 10⟩, [⟨[3], 4, 5⟩], 0, false⟩).2
    (by decide) (by decide) (by decide)

/-- C2: for a valid Sequence with normalized bounds whose points are all in
range, loading the document produced by the in-memory save succeeds and
reproduces the same pointDim, min, max and ordered point list, with the
modified flag false. -/
theorem claim2_save_load_roundtrip (s : Sequence) (hv : s.isValid) (hn : normBounds s)
    (hp : ∀ p ∈ s.seq, inRange s p) :
    ∃ t, Sequence.load (s.saveJson).1 = some t ∧ t.pointDim = s.pointDim ∧
      t.min = s.min ∧ t.max = s.max ∧ t.seq = s.seq ∧ t.isModified = false := by
  have hsave : (s.saveJson).1 =
      Json.arr (s.min.toJson :: s.max.toJson :: s.seq.map SequencePoint.toJson) := by
    unfold Sequence.saveJson
    rw [if_pos hv]
  rw [hsave, load_cons_cons, elemParse_toJson, elemParse_toJson]
  simp only [Option.bind_eq_bind, Option.some_bind]
  have heq : s.min.point.length = s.max.point.length := by rw [hn.1, hn.2]
  rw [if_pos heq, mapM_elemParse_toJson]
  simp only [Option.some_bind]
  have hall : (s.seq.all fun p => (p.point.length : ℤ) == (s.max.point.length : ℤ)) = true := by
    rw [List.all_eq_true]
    intro p hpmem
    have hl := (hp p hpmem).1
    simp [hl, hn.2]
  rw [if_pos hall]
  have hdim : (mkSequence s.max.point.length s.min s.max).pointDim = s.pointDim := hn.2
  have hmin : (mkSequence s.max.point.length s.min s.max).min = s.min :=
    mkSequence_min_eq _ _ _ heq
  have hmax : (mkSequence s.max.point.length s.min s.max).max = s.max :=
    mkSequence_max_eq _ _ _ rfl
  refine ⟨_, rfl, hdim, hmin, hmax, ?_, rfl⟩
  show (s.seq.map fun p => (mkSequence s.max.point.length s.min s.max).validatePoint p false) =
    s.seq
  have hid : ∀ p ∈ s.seq,
      (mkSequence s.max.point.length s.min s.max).validatePoint p false = p := by
    intro p hpm
    rw [validatePoint_congr _ s p hdim hmin hmax]
    exact validatePoint_eq_self s p (hp p hpm)
  calc (s.seq.map fun p =>
        (mkSequence s.max.point.length s.min s.max).validatePoint p false)
      = s.seq.map id := List.map_congr_left hid
    _ = s.seq := List.map_id s.seq

/-- Witness for C2 at a concrete valid one-point Sequence. -/
theorem claim2_save_load_roundtrip_witness :
    ∃ t, Sequence.load
        ((Sequence.saveJson ⟨1, ⟨[0], 0, 0⟩, ⟨[10], 10, 10⟩, [⟨[3], 4, 5⟩], 0, true⟩).1) =
        some t ∧
      t.pointDim = (⟨1, ⟨[0], 0, 0⟩, ⟨[10], 10, 10⟩, [⟨[3], 4, 5⟩], 0, true⟩ :
        Sequence).pointDim ∧
      t.min = (⟨1, ⟨[0], 0, 0⟩, ⟨[10], 10, 10⟩, [⟨[3], 4, 5⟩], 0, true⟩ : Sequence).min ∧
      t.max = (⟨1, ⟨[0], 0, 0⟩, ⟨[10], 10, 10⟩, [⟨[3], 4, 5⟩], 0, true⟩ : Sequence).max ∧
      t.seq = (⟨1, ⟨[0], 0, 0⟩, ⟨[10], 10, 10⟩, [⟨[3], 4, 5⟩], 0, true⟩ : Sequence).seq ∧
      t.isModified = false :=
  claim2_save_load_roundtrip ⟨1, ⟨[0], 0, 0⟩, ⟨[10], 10, 10⟩, [⟨[3], 4, 5⟩], 0, true⟩
    (by decide) (by decide) (by decide)

/-- C3: Sequence::load returns the failure value exactly when the document
is not an array, some element is not an object or fails fromJson, some
element's dimension disagrees with the first element's, or the array is
empty; on success with at least two elements, element 0 is the min,
element 1 the max, the remaining elements (validated) the point list, the
cursor is 0 on a non-empty list and -1 otherwise, and the modified flag is
false. -/
theorem claim3_load_characterization (j : Json) :
    (Sequence.load j = none ↔ loadFailSpec j) ∧
    (∀ e0 e1 rest, j = Json.arr (e0 :: e1 :: rest) → ∀ s, Sequence.load j = some s →
      ∃ p0 p1 ps, elemParse e0 = some p0 ∧ elemParse e1 = some p1 ∧
        rest.mapM elemParse = some ps ∧
        s.pointDim = p0.point.length ∧ s.min = p0 ∧ s.max = p1 ∧
        s.seq = ps.map (fun p => s.validatePoint p false) ∧
        s.curPoint = (if ps.isEmpty then (-1 : ℤ) else 0) ∧ s.isModified = false) := by
  refine ⟨load_none_iff j, ?_⟩
  intro e0 e1 rest hj s hs
  subst hj
  rw [load_cons_cons] at hs
  cases hp0 : elemParse e0 with
  | none => rw [hp0] at hs; cases hs
  | some p0 =>
    rw [hp0] at hs
    simp only [Option.bind_eq_bind, Option.some_bind] at hs
    cases hp1 : elemParse e1 with
    | none => rw [hp1] at hs; cases hs
    | some p1 =>
      rw [hp1] at hs
      simp only [Option.some_bind] at hs
      by_cases heq : p0.point.length = p1.point.length
      · rw [if_pos heq] at hs
        cases hr : rest.mapM elemParse with
        | none => rw [hr] at hs; cases hs
        | some ps =>
          rw [hr] at hs
          simp only [Option.some_bind] at hs
          by_cases hall :
              (ps.all fun p => (p.point.length : ℤ) == (p1.point.length : ℤ)) = true
          · rw [if_pos hall] at hs
            simp only [Option.some.injEq] at hs
            refine ⟨p0, p1, ps, rfl, rfl, rfl, ?_, ?_, ?_, ?_, ?_, ?_⟩
            · rw [← hs]
              exact heq.symm
            · rw [← hs]
              show (mkSequence p1.point.length p0 p1).min = p0
              exact mkSequence_min_eq _ _ _ heq
            · rw [← hs]
              show (mkSequence p1.point.length p0 p1).max = p1
              exact mkSequence_max_eq _ _ _ rfl
            · rw [← hs]
              try rfl
            · rw [← hs]
              try rfl
            · rw [← hs]
              try rfl
          · rw [if_neg hall] at hs
            cases hs
      · rw [if_neg heq] at hs
        cases hs

/-- Witness for C3 at a concrete three-element document that loads
successfully. -/
theorem claim3_load_characterization_witness :
    (Sequence.load (Json.arr [SequencePoint.toJson ⟨[1], 0, 0⟩,
        SequencePoint.toJson ⟨[2], 5, 5⟩, SequencePoint.toJson ⟨[3], 7, 7⟩]) = none ↔
      loadFailSpec (Json.arr [SequencePoint.toJson ⟨[1], 0, 0⟩,
        SequencePoint.toJson ⟨[2], 5, 5⟩, SequencePoint.toJson ⟨[3], 7, 7⟩])) ∧
    (∃ p0 p1 ps, elemParse (SequencePoint.toJson ⟨[1], 0, 0⟩) = some p0 ∧
      elemParse (SequencePoint.toJson ⟨[2], 5, 5⟩) = some p1 ∧
      [SequencePoint.toJson ⟨[3], 7, 7⟩].mapM elemParse = some ps ∧
      (⟨1, ⟨[1], 0, 0⟩, ⟨[2], 5, 5⟩, [⟨[2], 5, 5⟩], 0, false⟩ : Sequence).pointDim =
        p0.point.length ∧
      (⟨1, ⟨[1], 0, 0⟩, ⟨[2], 5, 5⟩, [⟨[2], 5, 5⟩], 0, false⟩ : Sequence).min = p0 ∧
      (⟨1, ⟨[1], 0, 0⟩, ⟨[2], 5, 5⟩, [⟨[2], 5, 5⟩], 0, false⟩ : Sequence).max = p1 ∧
      (⟨1, ⟨[1], 0, 0⟩, ⟨[2], 5, 5⟩, [⟨[2], 5, 5⟩], 0, false⟩ : Sequence).seq =
        ps.map (fun p =>
          (⟨1, ⟨[1], 0, 0⟩, ⟨[2], 5, 5⟩, [⟨[2], 5, 5⟩], 0, false⟩ :
            Sequence).validatePoint p false) ∧
      (⟨1, ⟨[1], 0, 0⟩, ⟨[2], 5, 5⟩, [⟨[2], 5, 5⟩], 0, false⟩ : Sequence).curPoint =
        (if ps.isEmpty then (-1 : ℤ) else 0) ∧
      (⟨1, ⟨[1], 0, 0⟩, ⟨[2], 5, 5⟩, [⟨[2], 5, 5⟩], 0, false⟩ : Sequence).isModified =
        false) :=
  ⟨(claim3_load_characterization _).1,
    (claim3_load_characterization _).2 (SequencePoint.toJson ⟨[1], 0, 0⟩)
      (SequencePoint.toJson ⟨[2], 5, 5⟩) [SequencePoint.toJson ⟨[3], 7, 7⟩] rfl
      ⟨1, ⟨[1], 0, 0⟩, ⟨[2], 5, 5⟩, [⟨[2], 5, 5⟩], 0, false⟩ (by decide)⟩

/-- C10: a one-element array whose element is a well-formed point object of
positive dimension d loads successfully into a valid Sequence with
pointDim d, min equal to that element, max equal to the default
SequencePoint padded with 0.0 to length d, an empty point list, cursor -1
and modified flag false. -/
theorem claim10_singleton_load (fields : List (JKey × Json)) (p0 : SequencePoint)
    (h1 : SequencePoint.fromJson fields = some p0) (h2 : 0 < p0.point.length) :
    ∃ t, Sequence.load (Json.arr [Json.obj fields]) = some t ∧
      t.pointDim = p0.point.length ∧ t.min = p0 ∧
      t.max = ⟨List.replicate p0.point.length 0, 0, 0⟩ ∧
      t.seq = [] ∧ t.curPoint = -1 ∧ t.isModified = false ∧ t.isValid := by
  rw [load_singleton]
  have hep : elemParse (Json.obj fields) = some p0 := h1
  rw [hep]
  simp only [Option.map_some']
  refine ⟨_, rfl, rfl, mkSequence_min_eq _ _ _ rfl, ?_, rfl, rfl, rfl, h2⟩
  show { (default : SequencePoint) with
    point := resizeToDim p0.point.length (default : SequencePoint).point } = _
  rw [show (default : SequencePoint).point = [] from rfl, resizeToDim_nil _ h2]
  rfl

/-- Witness for C10 at a concrete one-element document of dimension 1. -/
theorem claim10_singleton_load_witness :
    ∃ t, Sequence.load (Json.arr [Json.obj [(JKey.point, Json.arr [Json.num 1]),
        (JKey.duration, Json.num 2), (JKey.timeToTarget, Json.num 3)]]) = some t ∧
      t.pointDim = (⟨[1], 2, 3⟩ : SequencePoint).point.length ∧
      t.min = (⟨[1], 2, 3⟩ : SequencePoint) ∧
      t.max = ⟨List.replicate (⟨[1], 2, 3⟩ : SequencePoint).point.length 0, 0, 0⟩ ∧
      t.seq = [] ∧ t.curPoint = -1 ∧ t.isModified = false ∧ t.isValid :=
  claim10_singleton_load
    [(JKey.point, Json.arr [Json.num 1]), (JKey.duration, Json.num 2),
      (JKey.timeToTarget, Json.num 3)] ⟨[1], 2, 3⟩ (by decide) (by decide)
